import Mathlib

/-!
Verification of the exile-ai Chat Orchestration Engine against its
natural-language specification.  Each definition below is a shallow
embedding of a function of the Python source under `app/services/llm/`;
the theorems in the second half of the file settle the frozen claims.
-/

set_option maxHeartbeats 1000000

namespace ExileAI

/-! ## Definitions: RAG text splitting
(`RAGService._split_text`, `RAGService.ingest_document`) -/

namespace RAG

open Classical

/-- Whitespace strip of both ends of a character list, mirroring the Python
`str.strip()` used inside `RAGService._split_text`.  Python strings are
sequences of code points, embedded here as `List Char`. -/
def stripChars (s : List Char) : List Char :=
  ((s.dropWhile Char.isWhitespace).reverse.dropWhile Char.isWhitespace).reverse

/-- Embedding of `RAGService._split_text`.  The source loop keeps a window
start cursor; here the recursion works on the remaining suffix of the text,
which is the same iteration (`start = end - chunk_overlap` becomes a
`drop (chunkSize - chunkOverlap)`).  The `chunkSize ≤ chunkOverlap` guard
covers only parameter values outside the clamped range established by
`ingest_document`, where the source loop would never terminate and is never
entered. -/
def split_text (chunkSize chunkOverlap : Nat) (s : List Char) : List (List Char) :=
  if s.length ≤ chunkSize then
    if s.isEmpty then []
    else
      let c := stripChars s
      if c.isEmpty then [] else [c]
  else if _h : chunkSize ≤ chunkOverlap then []
  else
    let c := stripChars (s.take chunkSize)
    let rest := split_text chunkSize chunkOverlap (s.drop (chunkSize - chunkOverlap))
    if c.isEmpty then rest else c :: rest
termination_by s.length
decreasing_by
  simp only [List.length_drop]
  omega

/-- Clamp applied by `RAGService.ingest_document` to `chunk_size`:
`max(200, min(chunk_size, 4000))`. -/
def clamp_chunk_size (chunkSize : Int) : Int :=
  max 200 (min chunkSize 4000)

/-- Clamp applied by `RAGService.ingest_document` to `chunk_overlap`:
`max(0, min(chunk_overlap, chunk_size - 1))`, on the already-clamped size. -/
def clamp_chunk_overlap (chunkOverlap chunkSize : Int) : Int :=
  max 0 (min chunkOverlap (chunkSize - 1))

/-! ## Definitions: RAG retrieval
(`RAGService._cosine_similarity`, `RAGService.retrieve_context`).
Python floats are idealised as real numbers. -/

/-- Embedding of `RAGService._cosine_similarity`: cosine similarity of the
two vectors truncated to the shorter length, 0 when either vector is empty
or has zero norm. -/
noncomputable def cosine_similarity (vec1 vec2 : List ℝ) : ℝ :=
  if vec1 = [] ∨ vec2 = [] then 0
  else
    let size := min vec1.length vec2.length
    if size ≤ 0 then 0
    else
      let a := vec1.take size
      let b := vec2.take size
      let dot := (List.zipWith (· * ·) a b).sum
      let normA := Real.sqrt ((a.map (fun x => x * x)).sum)
      let normB := Real.sqrt ((b.map (fun y => y * y)).sum)
      if normA = 0 ∨ normB = 0 then 0
      else dot / (normA * normB)

/-- Stored chunk row fields consulted by `RAGService.retrieve_context`. -/
structure StoredChunk where
  docId : String
  chunkIndex : Nat
  content : String
  embedding : List ℝ

/-- Retrieved passage record built by `RAGService.retrieve_context`
(the presentation-level rounding of the score to 6 decimals is omitted). -/
structure RetrievedPassage where
  docId : String
  title : Option String
  chunkIndex : Nat
  content : String
  score : ℝ

/-- Embedding of the scoring, ranking and selection core of
`RAGService.retrieve_context`: score every stored chunk by cosine
similarity against the query embedding, drop non-positive scores, sort by
descending score (a stable sort, as Python `list.sort` is), keep the top
`max(1, min(top_k, 20))`, and enrich each kept chunk with its parent
document title via `titleOf`. -/
noncomputable def retrieve_context (queryEmbedding : List ℝ) (chunks : List StoredChunk)
    (topK : Int) (titleOf : String → Option String) : List RetrievedPassage :=
  let scored := chunks.filterMap (fun c =>
    let score := cosine_similarity queryEmbedding c.embedding
    if score ≤ 0 then none else some (score, c))
  let sorted := scored.mergeSort (fun x y => decide (y.1 ≤ x.1))
  let selected := sorted.take (max 1 (min topK 20)).toNat
  selected.map (fun p =>
    { docId := p.2.docId
      title := titleOf p.2.docId
      chunkIndex := p.2.chunkIndex
      content := p.2.content
      score := p.1 })

end RAG

/-! ## Definitions: quota gate (`LLMQuotaService.enforce_before_request`) -/

namespace Quota

/-- Configuration knobs read by `LLMQuotaService.enforce_before_request`. -/
structure QuotaConfig where
  rateLimitEnable : Bool
  requestsPerMinute : Int
  requestsPerDay : Int
  tokenQuotaPerDay : Int
deriving Repr, DecidableEq

/-- Current values of the three redis counters consulted for one
(owner, provider, model) key set: the minute bucket, the day request bucket
and the day token bucket.  An absent key reads as 0, matching redis `INCR`
and the `_to_int(None) = 0` read path. -/
structure QuotaCounters where
  minuteCount : Int
  dayRequestCount : Int
  dayTokenCount : Int
deriving Repr, DecidableEq

/-- Errors raised by `enforce_before_request`; the source raises
`CustomException(status_code=429, custom_code=10005)` with three distinct
detail messages, distinguished here by constructor. -/
inductive QuotaError where
  | rateLimitedMinute
  | rateLimitedDay
  | quotaExhausted
deriving Repr, DecidableEq

/-- Embedding of `LLMQuotaService.enforce_before_request`.  The `Option`
on the counters is `None` when the redis pool is unavailable.  The result
pairs the final counter values (increments already performed persist even
when an error is raised, as they do in redis) with the raised error, if any. -/
def enforce_before_request (cfg : QuotaConfig) (store : Option QuotaCounters) :
    Option QuotaCounters × Option QuotaError :=
  if !cfg.rateLimitEnable then (store, none)
  else
    match store with
    | none => (none, none)
    | some st =>
      let minuteLimit := max 1 cfg.requestsPerMinute
      let st := { st with minuteCount := st.minuteCount + 1 }
      if minuteLimit < st.minuteCount then (some st, some .rateLimitedMinute)
      else
        let dayLimit := max 0 cfg.requestsPerDay
        let st := if 0 < dayLimit then { st with dayRequestCount := st.dayRequestCount + 1 } else st
        if 0 < dayLimit ∧ dayLimit < st.dayRequestCount then (some st, some .rateLimitedDay)
        else
          let tokenLimit := max 0 cfg.tokenQuotaPerDay
          if 0 < tokenLimit ∧ tokenLimit ≤ st.dayTokenCount then (some st, some .quotaExhausted)
          else (some st, none)

end Quota

/-! ## Definitions: chat orchestration
(`ChatService._run_completion_with_tools`,
`ChatService._run_completion_with_fallback`,
`ChatService._provider_candidates`,
`ChatService._is_fallback_candidate_error`). -/

namespace Chat

/-- Tool call issued by a provider completion: id, function name, raw
argument text. -/
structure ToolCall where
  id : String
  name : String
  arguments : String
deriving Repr, DecidableEq

/-- Python exception as observed by the chat service: a `CustomException`
carries a detail message and a custom code; any other exception only its
message. -/
structure PyError where
  isCustom : Bool
  detail : String
  customCode : Int
deriving Repr, DecidableEq

/-- Substring test, standing in for the Python `marker in detail` check:
for a non-empty pattern, `splitOn` yields more than one piece exactly when
the pattern occurs. -/
def containsSub (s pat : String) : Bool :=
  (s.splitOn pat).length > 1

/-- Detail markers of `ChatService._is_fallback_candidate_error`. -/
def fallbackMarkers : List String :=
  ["模型请求失败", "模型流式请求失败", "模型返回为空", "API key 未配置",
   "base_url 未配置", "不支持的模型厂商"]

/-- Embedding of `ChatService._is_fallback_candidate_error`: every
non-custom exception is transient-eligible; a `CustomException` is
transient-eligible exactly when its detail contains one of the markers. -/
def is_fallback_candidate_error (e : PyError) : Bool :=
  if !e.isCustom then true
  else fallbackMarkers.any (fun m => containsSub e.detail m)

/-- Result of one completion call after the normalisation the source
applies (`_to_text` on the content, `tool_calls or []`). -/
structure Completion where
  provider : String
  model : String
  content : String
  toolCalls : List ToolCall
deriving Repr, DecidableEq

/-- Result record of `execute_tool_call` (local registry or MCP). -/
structure ToolResult where
  ok : Bool
  tool_call_id : String
  tool_name : String
  content : String
deriving Repr, DecidableEq

/-- Message of the working turn context. -/
inductive Msg where
  | system (content : String)
  | user (content : String)
  | assistant (content : String) (toolCalls : List ToolCall)
  | tool (content : String) (toolCallId : String)
deriving Repr, DecidableEq

/-- Row data appended to `generated_records` by the tool loop; `reason` is
the `extra.reason` tag (`max_tool_steps_exceeded` on the synthesized final
message). -/
inductive GenRecord where
  | assistant (content : String) (toolCalls : List ToolCall)
      (provider model : String) (reason : Option String)
  | toolRec (content : String) (toolName : String) (toolCallId : String) (ok : Bool)
deriving Repr, DecidableEq

/-- Synthesized final assistant text when the tool-step budget is exhausted
while tool calls are still pending. -/
def max_tool_steps_message : String := "工具调用达到上限，请缩小问题范围后重试。"

/-- Output of the tool loop: the final assistant text, the messages it
appended to the working context, the generated records, the tool run
results, and the provider/model of the last completion. -/
structure ToolLoopResult where
  assistantText : String
  appended : List Msg
  records : List GenRecord
  toolRuns : List ToolResult
  provider : String
  model : String
deriving Repr

/-- Tool-loop outcome instrumented with the number of completion calls
issued (the source issues one `chat_completion` call per loop iteration). -/
structure ToolLoopOut where
  calls : Nat
  result : Except PyError ToolLoopResult

/-- Execution of the tool calls of one completion, in provider order.  The
source appends, per call, one tool-role message and one generated record
before the next completion call; an executor exception propagates. -/
def run_tool_calls (execTool : ToolCall → Except PyError ToolResult) :
    List ToolCall → Except PyError (List Msg × List GenRecord × List ToolResult)
  | [] => .ok ([], [], [])
  | tc :: rest =>
    match execTool tc with
    | .error e => .error e
    | .ok tr =>
      match run_tool_calls execTool rest with
      | .error e => .error e
      | .ok (ms, rs, trs) =>
        .ok (Msg.tool tr.content tr.tool_call_id :: ms,
             GenRecord.toolRec tr.content tr.tool_name tr.tool_call_id tr.ok :: rs,
             tr :: trs)

/-- One pass of the bounded loop of `ChatService._run_completion_with_tools`.
`completionAt k` is the environment: the outcome of the k-th completion
call.  `fuel` is the remaining iteration budget; the `fuel = 0` case is the
post-loop `tool_call_pending` branch synthesizing the final assistant
record, reached only after a completion that still carried tool calls. -/
def run_tool_steps (completionAt : Nat → Except PyError Completion)
    (execTool : ToolCall → Except PyError ToolResult)
    (provider model : String) (k : Nat) : Nat → ToolLoopOut
  | 0 =>
    { calls := 0,
      result := .ok
        { assistantText := max_tool_steps_message
          appended := []
          records := [.assistant max_tool_steps_message [] provider model
            (some "max_tool_steps_exceeded")]
          toolRuns := []
          provider := provider
          model := model } }
  | fuel + 1 =>
    match completionAt k with
    | .error e => { calls := 1, result := .error e }
    | .ok comp =>
      let asstMsg := Msg.assistant comp.content comp.toolCalls
      let asstRec := GenRecord.assistant comp.content comp.toolCalls
        comp.provider comp.model none
      if comp.toolCalls.isEmpty then
        { calls := 1,
          result := .ok
            { assistantText := comp.content
              appended := [asstMsg]
              records := [asstRec]
              toolRuns := []
              provider := comp.provider
              model := comp.model } }
      else
        match run_tool_calls execTool comp.toolCalls with
        | .error e => { calls := 1, result := .error e }
        | .ok (toolMsgs, toolRecs, results) =>
          let rest := run_tool_steps completionAt execTool comp.provider comp.model
            (k + 1) fuel
          { calls := 1 + rest.calls,
            result := rest.result.map (fun r =>
              { assistantText := r.assistantText
                appended := asstMsg :: (toolMsgs ++ r.appended)
                records := asstRec :: (toolRecs ++ r.records)
                toolRuns := results ++ r.toolRuns
                provider := r.provider
                model := r.model }) }

/-- Embedding of `ChatService._run_completion_with_tools`: the loop body
runs for `range(max(1, max_tool_steps))` iterations. -/
def run_completion_with_tools (completionAt : Nat → Except PyError Completion)
    (execTool : ToolCall → Except PyError ToolResult)
    (provider model : String) (maxToolSteps : Nat) : ToolLoopOut :=
  run_tool_steps completionAt execTool provider model 0 (max 1 maxToolSteps)

/-- Python `request_data.max_tool_steps or project_config.LLM_MAX_TOOL_STEPS`:
a missing (or zero, which the schema forbids anyway) request value falls
back to the configuration default. -/
def effective_max_tool_steps (requestValue : Option Nat) (cfgDefault : Nat) : Nat :=
  match requestValue with
  | some v => if v = 0 then cfgDefault else v
  | none => cfgDefault

/-- Tool-response ids of the tool-role messages appended to the working
context, in order. -/
def toolResponseIds (ms : List Msg) : List String :=
  ms.filterMap (fun m =>
    match m with
    | .tool _ id => some id
    | _ => none)

/-- Ids of the tool calls issued by the assistant messages appended to the
working context, in provider order across iterations. -/
def issuedCallIds (ms : List Msg) : List String :=
  (ms.map (fun m =>
    match m with
    | .assistant _ tcs => tcs.map (fun tc => tc.id)
    | _ => [])).flatten

/-- Outcome of attempting one fallback candidate: its resolution may fail,
or the tool-loop run under it may fail, or it succeeds.  The resolved name
is `candidate_config.provider` returned by `resolve_provider`. -/
inductive AttemptOutcome where
  | resolveFail (e : PyError)
  | runFail (resolvedName : String) (e : PyError)
  | runOk (resolvedName : String) (res : ToolLoopResult)

/-- Error of an attempt outcome, if any. -/
def AttemptOutcome.errOf : AttemptOutcome → Option PyError
  | .resolveFail e => some e
  | .runFail _ e => some e
  | .runOk _ _ => none

/-- Generic no-provider-available error raised when the candidate loop ends
without having recorded any error (`custom_code=10005`). -/
def noProviderError : PyError :=
  { isCustom := true, detail := "模型调用失败，且无可用回退厂商", customCode := 10005 }

/-- Successful outcome of the fallback loop: the tool-loop result of the
winning candidate, the `fallback_from` marker (the primary provider when a
non-first candidate won) and the recorded fallback chain. -/
structure FallbackSuccess where
  res : ToolLoopResult
  fallbackFrom : Option String
  chain : List String
deriving Repr

/-- Candidate loop of `ChatService._run_completion_with_fallback`.
`env idx` is the environment outcome of attempting the idx-th candidate.
A resolution failure appends the raw candidate name to the chain, while a
resolved candidate appends its resolved name; a non-transient error is
re-raised at once, a transient one advances the loop remembering the last
error; on exhaustion the last error is re-raised, or the generic
no-provider error when no candidate was ever attempted. -/
def fallback_loop (env : Nat → AttemptOutcome) (primary : String)
    (idx : Nat) (lastError : Option PyError) :
    List String → Except PyError FallbackSuccess
  | [] => .error (lastError.getD noProviderError)
  | cand :: rest =>
    match env idx with
    | .resolveFail e =>
      if is_fallback_candidate_error e then
        match fallback_loop env primary (idx + 1) (some e) rest with
        | .ok s => .ok { s with chain := cand :: s.chain }
        | .error e2 => .error e2
      else .error e
    | .runFail rname e =>
      if is_fallback_candidate_error e then
        match fallback_loop env primary (idx + 1) (some e) rest with
        | .ok s => .ok { s with chain := rname :: s.chain }
        | .error e2 => .error e2
      else .error e
    | .runOk rname res =>
      .ok { res := res
            fallbackFrom := if 0 < idx then some primary else none
            chain := [rname] }

/-- Embedding of `ChatService._run_completion_with_fallback` over the
candidate list produced by `_provider_candidates`. -/
def run_completion_with_fallback (env : Nat → AttemptOutcome) (primary : String)
    (candidates : List String) : Except PyError FallbackSuccess :=
  fallback_loop env primary 0 none candidates

/-- Transient-classified failure of a candidate attempt: either its
resolution or its tool-loop run raised an error that
`_is_fallback_candidate_error` classifies as eligible for fallback. -/
def transientFailure : AttemptOutcome → Prop
  | .resolveFail e => is_fallback_candidate_error e = true
  | .runFail _ e => is_fallback_candidate_error e = true
  | .runOk _ _ => False

/-- De-duplication loop of `ChatService._provider_candidates`: keeps the
first occurrence of each non-empty name, preserving order. -/
def dedup_candidates : List String → List String → List String
  | [], acc => acc
  | n :: rest, acc =>
    if n = "" ∨ n ∈ acc then dedup_candidates rest acc
    else dedup_candidates rest (acc ++ [n])

/-- Embedding of `ChatService._provider_candidates`: the primary provider
(defaulted, trimmed, lowercased) followed by the configured fallback
providers, de-duplicated, order preserved; `[primary]` when auto-fallback
is disabled or the de-duplicated list is empty. -/
def provider_candidates (primaryProvider defaultProvider : String)
    (autoFallbackEnable : Bool) (fallbackProvidersCfg : String) : List String :=
  let primary := (if primaryProvider = "" then defaultProvider
    else primaryProvider).trim.toLower
  if !autoFallbackEnable then [primary]
  else
    let fallbackList := (fallbackProvidersCfg.splitOn ",").filterMap (fun x =>
      if x.trim = "" then none else some (x.trim.toLower))
    let candidates := dedup_candidates (primary :: fallbackList) []
    if candidates = [] then [primary] else candidates

end Chat

/-! ## Definitions: conversation memory
(`ConversationMemoryService.maybe_refresh_summary`,
`ConversationMemoryService.get_memory_state`,
`ConversationMemoryService.trim_history_rows`). -/

namespace Memory

/-- Configuration knobs read by `ConversationMemoryService`. -/
structure MemoryConfig where
  memoryEnable : Bool
  summaryTriggerMessages : Int
  keepRecentMessages : Int
  summaryMaxChars : Int
deriving Repr, DecidableEq

/-- Embedding of `ConversationMemoryService.get_memory_state`: a blank or
missing stored summary reads as `none` (the stored value is a string, an
absent key reading as the empty string), and the stored count reads clamped
at 0. -/
def get_memory_state (memorySummary : String) (memoryMessageCount : Int) :
    Option String × Nat :=
  (if memorySummary.trim = "" then none else some memorySummary.trim,
   (max 0 memoryMessageCount).toNat)

/-- Outcome of one `maybe_refresh_summary` call: the returned pair and the
conversation `extra_config` memory fields after the call. -/
structure RefreshOutcome where
  summaryText : Option String
  summarizedCount : Nat
  storedSummary : String
  storedCount : Int
deriving Repr, DecidableEq

/-- Embedding of `ConversationMemoryService.maybe_refresh_summary` with
`get_memory_state` inlined.  `historyLen` is `len(history_rows)`; `llm` is
the environment outcome of the single summarisation completion call:
`none` when it raised (the failure is swallowed and the previous state
kept), otherwise the `_to_text`-normalised content.  Nat subtraction gives
the Python `max(0, a - b)` clamps directly. -/
def maybe_refresh_summary (cfg : MemoryConfig)
    (memorySummary : String) (memoryMessageCount : Int)
    (historyLen : Nat) (llm : Option String) : RefreshOutcome :=
  let summaryText := if memorySummary.trim = "" then none else some memorySummary.trim
  let summarizedCount0 := (max 0 memoryMessageCount).toNat
  if !cfg.memoryEnable then
    ⟨summaryText, summarizedCount0, memorySummary, memoryMessageCount⟩
  else if historyLen = 0 then
    ⟨summaryText, summarizedCount0, memorySummary, memoryMessageCount⟩
  else
    let summarizedCount := min summarizedCount0 historyLen
    let trigger := (max 6 cfg.summaryTriggerMessages).toNat
    let keepRecent := (max 4 (min cfg.keepRecentMessages 100)).toNat
    let cutoff := historyLen - keepRecent
    let unsummarized := cutoff - summarizedCount
    if unsummarized < trigger then
      ⟨summaryText, summarizedCount, memorySummary, memoryMessageCount⟩
    else if cutoff ≤ summarizedCount then
      ⟨summaryText, summarizedCount, memorySummary, memoryMessageCount⟩
    else
      match llm with
      | none => ⟨summaryText, summarizedCount, memorySummary, memoryMessageCount⟩
      | some content0 =>
        let content1 := content0.trim
        if content1 = "" then
          ⟨summaryText, summarizedCount, memorySummary, memoryMessageCount⟩
        else
          let maxChars := (max 500 cfg.summaryMaxChars).toNat
          let content := if maxChars < content1.length then content1.take maxChars
            else content1
          ⟨some content, cutoff, content, (cutoff : Int)⟩

/-- Embedding of `ConversationMemoryService.trim_history_rows`. -/
def trim_history_rows {α : Type} (historyRows : List α) (summarizedCount : Int) :
    List α :=
  if summarizedCount ≤ 0 then historyRows
  else historyRows.drop (max 0 (min summarizedCount (historyRows.length : Int))).toNat

end Memory

/-! ## Definitions: local tool execution
(`ToolRegistry.execute_tool_call`). -/

namespace Tools

/-- Structured arguments passed to a tool executor: the parsed JSON value,
or the `raw`-wrapped original text when the argument text is not valid
JSON (the Python `{"raw": arguments_text}` fallback). -/
inductive ToolArguments (J : Type) where
  | parsed (value : J)
  | raw (text : String)
deriving Repr, DecidableEq

/-- Content of the tool-role message body, standing for the two
`json.dumps` encodings `{"ok": true, "result": ...}` and
`{"ok": false, "error": ...}`. -/
inductive ToolContent (R : Type) where
  | success (result : R)
  | failure (error : String)
deriving Repr, DecidableEq

/-- Result record returned by `ToolRegistry.execute_tool_call`. -/
structure ToolCallOutcome (J R : Type) where
  ok : Bool
  tool_call_id : String
  tool_name : String
  arguments : ToolArguments J
  content : ToolContent R
deriving Repr, DecidableEq

/-- Raw tool call as received from the provider; empty strings stand for
missing (falsy) fields, matching `tool_call.get(...) or ...`. -/
structure RawToolCall where
  id : String
  name : String
  arguments : String
deriving Repr, DecidableEq

/-- Python `function_block.get("arguments") or "{}"`: the raw argument
text, defaulted when missing (the default literal is the two-character
brace pair). -/
def argumentsTextOf (call : RawToolCall) : String :=
  if call.arguments = "" then "\x7b\x7d" else call.arguments

/-- Parse of the argument text: on `json.loads` failure the arguments are
wrapped as the raw text instead of raising. -/
def argumentsOf {J : Type} (parseJson : String → Option J) (call : RawToolCall) :
    ToolArguments J :=
  match parseJson (argumentsTextOf call) with
  | some v => ToolArguments.parsed v
  | none => ToolArguments.raw (argumentsTextOf call)

/-- Embedding of `ToolRegistry.execute_tool_call`.  `parseJson` is the
environment JSON parser (`json.loads`, `none` meaning `JSONDecodeError`),
`freshId` the generated uuid used when the call carries no id, and `tools`
the registry table; an executor failure is caught and encoded as an
`ok = false` result rather than raised. -/
def execute_tool_call {J R : Type} (parseJson : String → Option J)
    (freshId : String)
    (tools : List (String × (ToolArguments J → Except String R)))
    (call : RawToolCall) : Except Chat.PyError (ToolCallOutcome J R) :=
  let callId := if call.id = "" then freshId else call.id
  if call.name = "" then
    .error { isCustom := true, detail := "工具调用缺少 name", customCode := 10005 }
  else
    match tools.lookup call.name with
    | none =>
      .error { isCustom := true, detail := "工具 " ++ call.name ++ " 未注册",
               customCode := 10002 }
    | some executor =>
      let arguments := argumentsOf parseJson call
      match executor arguments with
      | .ok r =>
        .ok { ok := true, tool_call_id := callId, tool_name := call.name,
              arguments := arguments, content := .success r }
      | .error msg =>
        .ok { ok := false, tool_call_id := callId, tool_name := call.name,
              arguments := arguments, content := .failure msg }

end Tools

/-! ## Definitions: streaming chat loop (`ChatService.chat_stream`,
lines 537-694: the candidate loop, event emission and the partial-persist
error path). -/

namespace Streaming

open Chat (PyError is_fallback_candidate_error)

/-- One item produced by `chat_completion_stream`: a payload of type
`chunk` carrying the delta text extracted by `_extract_delta_text`
(possibly empty), or a payload of any other type, which the loop skips. -/
inductive StreamItem where
  | other
  | chunk (deltaText : String)
deriving Repr, DecidableEq

/-- Environment outcome of attempting one streaming candidate: resolution
failure, or an opened stream yielding `items` and then either finishing
(`err = none`) or raising `err`. -/
inductive StreamAttempt where
  | resolveFail (e : PyError)
  | stream (resolvedProvider resolvedModel : String) (items : List StreamItem)
      (err : Option PyError)

/-- Server-sent event emitted by `chat_stream`. -/
inductive SEvent where
  | meta (provider model : String)
  | delta (text : String)
  | done (text : String)
  | errorEv (message : String)
deriving Repr, DecidableEq

/-- Assistant message persisted by the run, if any; the error path tags the
row `partial: true`. -/
inductive Persisted where
  | noMessage
  | fullMessage (text : String)
  | partialMessage (text : String)
deriving Repr, DecidableEq

/-- Python `str.strip()` on the joined assistant text, expressed over the
code-point representation of the string (Lean `String.trim` computes over
byte positions, which obscures evaluation; both strip the same ends). -/
def pyStrip (s : String) : String :=
  ⟨ExileAI.RAG.stripChars s.data⟩

/-- Consumption of the items of one candidate stream: the emitted `delta`
events (one per non-empty delta text, in arrival order), the accumulated
`assistant_parts`, and the `got_chunk` flag, which any `chunk`-typed item
sets, even one with empty delta text. -/
def consumeItems : List StreamItem → List SEvent × List String × Bool
  | [] => ([], [], false)
  | .other :: rest => consumeItems rest
  | .chunk d :: rest =>
    let r := consumeItems rest
    ((if d = "" then r.1 else .delta d :: r.1),
     (if d = "" then r.2.1 else d :: r.2.1),
     true)

/-- Loop outcome: the run breaks out successfully with the accumulated
text, or an exception escapes to the outer handler carrying the text
accumulated so far. -/
inductive StreamOutcome where
  | success (text : String)
  | fatal (text : String) (e : PyError)
deriving Repr, DecidableEq

/-- Candidate loop of `chat_stream`: emits one `meta` per resolved
candidate, consumes its stream, advances on a transient-classified error
raised before any chunk arrived, and escapes otherwise; exhaustion
re-raises the last error (`raise stream_error`). -/
def stream_loop (env : Nat → StreamAttempt) (idx : Nat)
    (lastError : Option PyError) :
    List String → List SEvent × List String × StreamOutcome
  | [] =>
    ([], [], match lastError with
      | some e => .fatal "" e
      | none => .success "")
  | cand :: rest =>
    match env idx with
    | .resolveFail e =>
      if is_fallback_candidate_error e then
        let r := stream_loop env (idx + 1) (some e) rest
        (r.1, cand :: r.2.1, r.2.2)
      else ([], [cand], .fatal "" e)
    | .stream rp rm items err =>
      let consumed := consumeItems items
      match err with
      | none =>
        (SEvent.meta rp rm :: consumed.1, [rp],
         .success (pyStrip (String.join consumed.2.1)))
      | some e =>
        if consumed.2.2 then
          (SEvent.meta rp rm :: consumed.1, [rp],
           .fatal (pyStrip (String.join consumed.2.1)) e)
        else if is_fallback_candidate_error e then
          let r := stream_loop env (idx + 1) (some e) rest
          (SEvent.meta rp rm :: consumed.1 ++ r.1, rp :: r.2.1, r.2.2)
        else
          (SEvent.meta rp rm :: consumed.1, [rp],
           .fatal (pyStrip (String.join consumed.2.1)) e)

/-- Result of one streaming run: the emitted event sequence, the persisted
assistant message, and the recorded fallback chain. -/
structure StreamRun where
  events : List SEvent
  persisted : Persisted
  chain : List String
deriving Repr, DecidableEq

/-- Embedding of the candidate loop plus the success tail and the outer
exception handler of `chat_stream`: on success the joined, stripped text is
persisted as the assistant message and a final `done` event is emitted; on
escape the text accumulated so far is persisted tagged partial when
non-empty, and a final `error` event is emitted. -/
def chat_stream_run (env : Nat → StreamAttempt) (candidates : List String) :
    StreamRun :=
  let r := stream_loop env 0 none candidates
  match r.2.2 with
  | .success text =>
    { events := r.1 ++ [SEvent.done text]
      persisted := .fullMessage text
      chain := r.2.1 }
  | .fatal text e =>
    { events := r.1 ++ [SEvent.errorEv e.detail]
      persisted := if text = "" then .noMessage else .partialMessage text
      chain := r.2.1 }

/-- Events a failed candidate attempt contributes before the loop moves on:
a resolution failure emits nothing, a resolved candidate its `meta`. -/
def attemptPreEvents : StreamAttempt → List SEvent
  | .resolveFail _ => []
  | .stream rp rm _ _ => [SEvent.meta rp rm]

/-- Chain entry recorded for a candidate attempt: the raw candidate name on
resolution failure, the resolved provider name otherwise. -/
def attemptChainEntry (cand : String) : StreamAttempt → String
  | .resolveFail _ => cand
  | .stream rp _ _ _ => rp

/-- Delta events of one candidate stream. -/
def deltaEvents (items : List StreamItem) : List SEvent :=
  (consumeItems items).1

/-- Joined, stripped assistant text of one candidate stream. -/
def streamText (items : List StreamItem) : String :=
  pyStrip (String.join (consumeItems items).2.1)

/-- Candidate attempt that fails before any chunk arrived, with a
transient-classified error: the loop advances past it. -/
def preChunkTransientFailure : StreamAttempt → Prop
  | .resolveFail e => is_fallback_candidate_error e = true
  | .stream _ _ items err =>
    (consumeItems items).2.2 = false ∧
      ∃ e, err = some e ∧ is_fallback_candidate_error e = true

/-- Concatenated pre-events of k consecutive attempts starting at `idx`. -/
def eventsPrefixFrom (env : Nat → StreamAttempt) (idx k : Nat) : List SEvent :=
  ((List.range k).map (fun i => attemptPreEvents (env (idx + i)))).flatten

/-- Chain entries of k consecutive attempts starting at `idx`. -/
def chainPrefixFrom (env : Nat → StreamAttempt) (cands : List String)
    (idx k : Nat) : List String :=
  (List.range k).map (fun i => attemptChainEntry (cands.getD i "") (env (idx + i)))

end Streaming

/-! ## Definitions: observability skeleton (`ChatService.chat`,
`ChatService.chat_stream` finally blocks and
`LLMObservabilityService.safe_record`). -/

namespace Obs

open Chat (PyError)

/-- Observability event: one metric-record attempt, with the stream flag of
the run and whether the underlying write succeeded. -/
inductive ObsEvent where
  | record (isStream : Bool) (success : Bool)
deriving Repr, DecidableEq

/-- Embedding of `LLMObservabilityService.safe_record`: exactly one record
attempt; an exception of the underlying `record` call is caught and
logged, never re-raised. -/
def safe_record (isStream : Bool) (recordOutcome : Except String Unit) :
    List ObsEvent :=
  [ObsEvent.record isStream (match recordOutcome with
    | .ok _ => true
    | .error _ => false)]

/-- Environment outcomes of the fallible steps of one `chat` /
`chat_stream` run body, in source order, plus the outcome of the metric
write performed in the `finally` block. -/
structure RunStages (A : Type) where
  loadConversation : Except PyError Unit
  resolveProvider : Except PyError Unit
  enforceQuota : Except PyError Unit
  refreshMemory : Except PyError Unit
  runBody : Except PyError A
  commit : Except PyError Unit
  commitTokenUsage : Except PyError Unit
  recordOutcome : Except String Unit

/-- Embedding of the try/except/finally skeleton shared by
`ChatService.chat` and `ChatService.chat_stream`: the body runs its stages
in order, stopping at the first raised error; whatever the outcome,
the `finally` block then calls `safe_record` exactly once. -/
def run_with_observability {A : Type} (isStream : Bool) (stages : RunStages A) :
    Except PyError A × List ObsEvent :=
  let body : Except PyError A := do
    let _ ← stages.loadConversation
    let _ ← stages.resolveProvider
    let _ ← stages.enforceQuota
    let _ ← stages.refreshMemory
    let r ← stages.runBody
    let _ ← stages.commit
    let _ ← stages.commitTokenUsage
    pure r
  (body, safe_record isStream stages.recordOutcome)

end Obs

/-! ## Theorems -/

namespace RAG

lemma length_stripChars_le (s : List Char) : (stripChars s).length ≤ s.length := by
  unfold stripChars
  calc ((s.dropWhile Char.isWhitespace).reverse.dropWhile Char.isWhitespace).reverse.length
      = ((s.dropWhile Char.isWhitespace).reverse.dropWhile Char.isWhitespace).length := by
        simp
    _ ≤ (s.dropWhile Char.isWhitespace).reverse.length :=
        (List.dropWhile_sublist _).length_le
    _ = (s.dropWhile Char.isWhitespace).length := by simp
    _ ≤ s.length := (List.dropWhile_sublist _).length_le

lemma split_text_mem (chunkSize chunkOverlap : Nat) (s : List Char)
    (c : List Char) (hc : c ∈ split_text chunkSize chunkOverlap s) :
    c ≠ [] ∧ c.length ≤ chunkSize := by
  induction s using split_text.induct chunkSize chunkOverlap with
  | case1 s hlen hemp =>
    rw [split_text] at hc
    simp [hlen, hemp] at hc
  | case2 s hlen hemp c0 hc0 =>
    have h0 : stripChars s = [] := by simpa [List.isEmpty_iff] using hc0
    rw [split_text] at hc
    simp [hlen, hemp, h0] at hc
  | case3 s hlen hemp c0 hc0 =>
    have h0 : ¬stripChars s = [] := by simpa [List.isEmpty_iff] using hc0
    rw [split_text] at hc
    simp [hlen, hemp, h0] at hc
    subst hc
    exact ⟨h0, le_trans (length_stripChars_le s) hlen⟩
  | case4 s hlen hco =>
    rw [split_text] at hc
    simp [hlen, hco] at hc
  | case5 s hlen hco c0 hc0 ih =>
    have h0 : stripChars (s.take chunkSize) = [] := by simpa [List.isEmpty_iff] using hc0
    rw [split_text] at hc
    simp [hlen, hco, h0] at hc
    exact ih hc
  | case6 s hlen hco c0 hc0 ih =>
    have h0 : ¬stripChars (s.take chunkSize) = [] := by simpa [List.isEmpty_iff] using hc0
    rw [split_text] at hc
    simp [hlen, hco, h0] at hc
    rcases hc with hc | hc
    · subst hc
      refine ⟨h0, ?_⟩
      calc (stripChars (s.take chunkSize)).length
          ≤ (s.take chunkSize).length := length_stripChars_le _
        _ ≤ chunkSize := by
            simp [List.length_take]
    · exact ih hc

lemma cosine_similarity_self (q : List ℝ) (hq : 0 < (q.map (fun x => x * x)).sum) :
    cosine_similarity q q = 1 := by
  have hq0 : q ≠ [] := by
    rintro rfl
    simp at hq
  have hlen : 0 < q.length := List.length_pos.mpr hq0
  have hS : (0:ℝ) ≤ (q.map (fun x => x * x)).sum := le_of_lt hq
  have hsqrt : Real.sqrt ((q.map (fun x => x * x)).sum) ≠ 0 :=
    ne_of_gt (Real.sqrt_pos.mpr hq)
  rw [cosine_similarity, if_neg (by simp [hq0])]
  simp only [min_self, List.take_length]
  rw [if_neg (by omega), List.zipWith_same]
  rw [if_neg (by simp [hsqrt]), Real.mul_self_sqrt hS]
  exact div_self (ne_of_gt hq)

lemma cosine_similarity_eq (v w : List ℝ) (hv : v ≠ []) (hw : w ≠ []) :
    cosine_similarity v w =
      (let a := v.take (min v.length w.length)
       let b := w.take (min v.length w.length)
       if Real.sqrt ((a.map (fun x => x * x)).sum) = 0 ∨
          Real.sqrt ((b.map (fun y => y * y)).sum) = 0 then 0
       else (List.zipWith (· * ·) a b).sum /
         (Real.sqrt ((a.map (fun x => x * x)).sum) *
          Real.sqrt ((b.map (fun y => y * y)).sum))) := by
  have hv' : 0 < v.length := List.length_pos.mpr hv
  have hw' : 0 < w.length := List.length_pos.mpr hw
  rw [cosine_similarity, if_neg (not_or.mpr ⟨hv, hw⟩)]
  simp only []
  rw [if_neg (by omega)]

lemma cosine_similarity_take_min (v w : List ℝ) :
    cosine_similarity v w =
      cosine_similarity (v.take (min v.length w.length)) (w.take (min v.length w.length)) := by
  by_cases hv : v = []
  · subst hv
    simp [cosine_similarity]
  by_cases hw : w = []
  · subst hw
    simp [cosine_similarity]
  have hv' : 0 < v.length := List.length_pos.mpr hv
  have hw' : 0 < w.length := List.length_pos.mpr hw
  have hm0 : 0 < min v.length w.length := lt_min hv' hw'
  have h1 : (v.take (min v.length w.length)).length = min v.length w.length := by
    simp [List.length_take]
  have h2 : (w.take (min v.length w.length)).length = min v.length w.length := by
    simp [List.length_take]
  have hvt : v.take (min v.length w.length) ≠ [] := by
    intro h
    rw [h] at h1
    simp at h1
    omega
  have hwt : w.take (min v.length w.length) ≠ [] := by
    intro h
    rw [h] at h2
    simp at h2
    omega
  have e1 := cosine_similarity_eq v w hv hw
  have e2 := cosine_similarity_eq (v.take (min v.length w.length))
    (w.take (min v.length w.length)) hvt hwt
  rw [e1, e2]
  simp only [h1, h2, min_self, List.take_take]

lemma retrieve_context_sound (q : List ℝ) (chunks : List StoredChunk) (k : Int)
    (titleOf : String → Option String) :
    (retrieve_context q chunks k titleOf).length ≤ (max 1 (min k 20)).toNat ∧
    (∀ p ∈ retrieve_context q chunks k titleOf, 0 < p.score) ∧
    (retrieve_context q chunks k titleOf).Pairwise (fun x y => y.score ≤ x.score) := by
  unfold retrieve_context
  simp only [List.length_map]
  refine ⟨?_, ?_, ?_⟩
  · exact le_trans (List.length_take_le _ _) le_rfl
  · intro p hp
    simp only [List.mem_map] at hp
    obtain ⟨x, hx, rfl⟩ := hp
    have hx1 := List.mem_of_mem_take hx
    have hx2 := (List.mergeSort_perm
      (chunks.filterMap (fun c =>
        if cosine_similarity q c.embedding ≤ 0 then none
        else some (cosine_similarity q c.embedding, c)))
      (fun x y : ℝ × StoredChunk => decide (y.1 ≤ x.1))).mem_iff.mp hx1
    simp only [List.mem_filterMap] at hx2
    obtain ⟨a, -, hae⟩ := hx2
    by_cases hpos : cosine_similarity q a.embedding ≤ 0
    · simp [hpos] at hae
    · simp only [hpos, if_false] at hae
      cases hae
      simpa using lt_of_not_le hpos
  · have htrans : ∀ a b c : ℝ × StoredChunk,
        decide (b.1 ≤ a.1) = true → decide (c.1 ≤ b.1) = true → decide (c.1 ≤ a.1) = true := by
      intro a b c hab hbc
      simp only [decide_eq_true_eq] at hab hbc ⊢
      exact le_trans hbc hab
    have htotal : ∀ a b : ℝ × StoredChunk,
        (decide (b.1 ≤ a.1) || decide (a.1 ≤ b.1)) = true := by
      intro a b
      simp only [Bool.or_eq_true, decide_eq_true_eq]
      exact (le_total b.1 a.1)
    have hsorted := List.sorted_mergeSort htrans htotal
      (chunks.filterMap (fun c =>
        if cosine_similarity q c.embedding ≤ 0 then none
        else some (cosine_similarity q c.embedding, c)))
    have hsorted' := hsorted.sublist (List.take_sublist (max 1 (min k 20)).toNat _)
    refine List.Pairwise.map _ ?_ hsorted'
    intro a b hab
    exact of_decide_eq_true hab

lemma retrieve_context_identical (q : List ℝ) (c : StoredChunk) (k : Int)
    (titleOf : String → Option String) (hq : 0 < (q.map (fun x => x * x)).sum)
    (hc : c.embedding = q) :
    retrieve_context q [c] k titleOf =
      [{ docId := c.docId, title := titleOf c.docId, chunkIndex := c.chunkIndex,
         content := c.content, score := 1 }] := by
  have h1 : cosine_similarity q c.embedding = 1 := by
    rw [hc]
    exact cosine_similarity_self q hq
  have hk : 1 ≤ (max 1 (min k 20)).toNat := by omega
  unfold retrieve_context
  simp only [List.filterMap_cons, List.filterMap_nil, h1]
  rw [if_neg (by norm_num)]
  have hms : (([(1, c)] : List (ℝ × StoredChunk)).mergeSort (fun x y => decide (y.1 ≤ x.1)))
      = [(1, c)] :=
    List.perm_singleton.mp (List.mergeSort_perm _ _)
  rw [hms, List.take_of_length_le (by simpa using hk)]
  simp

/-- C10: for every input text and every clamped parameter pair
(`chunk_size` clamped into [200, 4000], `chunk_overlap` into
[0, chunk_size - 1]) the splitter terminates — `split_text` is accepted by
Lean as total, its recursive step advancing the window start by
`chunkSize - chunkOverlap`, which the conjunct `co < cs` shows is at least
1 — and every returned chunk is non-empty and at most `chunk_size`
characters long. -/
theorem claim_C10 (text : List Char) (chunkSizeReq chunkOverlapReq : Int) :
    200 ≤ (clamp_chunk_size chunkSizeReq).toNat ∧
    (clamp_chunk_size chunkSizeReq).toNat ≤ 4000 ∧
    (clamp_chunk_overlap chunkOverlapReq (clamp_chunk_size chunkSizeReq)).toNat
      < (clamp_chunk_size chunkSizeReq).toNat ∧
    (∀ c ∈ split_text (clamp_chunk_size chunkSizeReq).toNat
        (clamp_chunk_overlap chunkOverlapReq (clamp_chunk_size chunkSizeReq)).toNat text,
      c ≠ [] ∧ c.length ≤ (clamp_chunk_size chunkSizeReq).toNat) := by
  refine ⟨?_, ?_, ?_, ?_⟩
  · unfold clamp_chunk_size
    omega
  · unfold clamp_chunk_size
    omega
  · unfold clamp_chunk_size clamp_chunk_overlap
    omega
  · intro c hc
    exact split_text_mem _ _ _ _ hc

/-- Witness for C10 at a concrete input: the requested sizes 100 and -5
clamp to 200 and 0, and a 3-character text yields itself as its single
chunk. -/
theorem claim_C10_witness :
    List.replicate 3 'a' ∈ split_text (clamp_chunk_size 100).toNat
      (clamp_chunk_overlap (-5) (clamp_chunk_size 100)).toNat (List.replicate 3 'a') ∧
    List.replicate 3 'a' ≠ [] ∧
    (List.replicate 3 'a').length ≤ (clamp_chunk_size 100).toNat := by
  have hmem : List.replicate 3 'a' ∈ split_text (clamp_chunk_size 100).toNat
      (clamp_chunk_overlap (-5) (clamp_chunk_size 100)).toNat (List.replicate 3 'a') := by
    rw [split_text]
    decide
  exact ⟨hmem, (claim_C10 (List.replicate 3 'a') 100 (-5)).2.2.2 _ hmem⟩

/-- C8: every stored chunk is scored by cosine similarity of the query and
chunk vectors truncated to the shorter length, non-positive scores are
discarded, the rest is sorted by descending score and the top
`max(1, min(topK, 20))` are returned; a store holding one chunk whose
embedding equals the query embedding scores 1 and is selected for every
`topK`. -/
theorem claim_C8 :
    (∀ v w : List ℝ, cosine_similarity v w =
        cosine_similarity (v.take (min v.length w.length)) (w.take (min v.length w.length))) ∧
    (∀ (q : List ℝ) (chunks : List StoredChunk) (k : Int) (titleOf : String → Option String),
        1 ≤ (max 1 (min k 20)).toNat ∧ (max 1 (min k 20)).toNat ≤ 20 ∧
        (retrieve_context q chunks k titleOf).length ≤ (max 1 (min k 20)).toNat ∧
        (∀ p ∈ retrieve_context q chunks k titleOf, 0 < p.score) ∧
        (retrieve_context q chunks k titleOf).Pairwise (fun x y => y.score ≤ x.score)) ∧
    (∀ (q : List ℝ) (c : StoredChunk) (k : Int) (titleOf : String → Option String),
        0 < (q.map (fun x => x * x)).sum → c.embedding = q →
        retrieve_context q [c] k titleOf =
          [{ docId := c.docId, title := titleOf c.docId, chunkIndex := c.chunkIndex,
             content := c.content, score := 1 }]) := by
  refine ⟨cosine_similarity_take_min, ?_, retrieve_context_identical⟩
  intro q chunks k titleOf
  obtain ⟨hl, hpos, hsort⟩ := retrieve_context_sound q chunks k titleOf
  exact ⟨by omega, by omega, hl, hpos, hsort⟩

/-- Witness for C8 at a concrete input: the store holds one chunk equal to
the query embedding [1]; it is retrieved with score 1 at topK = 3. -/
theorem claim_C8_witness :
    0 < (([1] : List ℝ).map (fun x => x * x)).sum ∧
    retrieve_context [1]
        [{ docId := "doc", chunkIndex := 0, content := "text", embedding := [1] }]
        3 (fun _ => none) =
      [{ docId := "doc", title := none, chunkIndex := 0, content := "text", score := 1 }] := by
  have hq : (0:ℝ) < (([1] : List ℝ).map (fun x => x * x)).sum := by norm_num
  exact ⟨hq, claim_C8.2.2 [1]
    { docId := "doc", chunkIndex := 0, content := "text", embedding := [1] }
    3 (fun _ => none) hq rfl⟩

end RAG

namespace Quota

/-- Evaluation of the quota gate when the incremented minute counter
exceeds the per-minute ceiling. -/
lemma enforce_eval_minute (cfg : QuotaConfig) (st : QuotaCounters)
    (hen : cfg.rateLimitEnable = true)
    (c1 : max 1 cfg.requestsPerMinute < st.minuteCount + 1) :
    enforce_before_request cfg (some st) =
      (some ⟨st.minuteCount + 1, st.dayRequestCount, st.dayTokenCount⟩,
       some .rateLimitedMinute) := by
  simp only [enforce_before_request, hen, Bool.not_true, Bool.false_eq_true, if_false]
  split_ifs <;> first | rfl | (exfalso; (try dsimp only at *); omega)

/-- Evaluation of the quota gate when the minute bucket is within bounds but
the incremented day request counter exceeds the positive day ceiling. -/
lemma enforce_eval_day (cfg : QuotaConfig) (st : QuotaCounters)
    (hen : cfg.rateLimitEnable = true)
    (c1 : ¬max 1 cfg.requestsPerMinute < st.minuteCount + 1)
    (c2 : 0 < cfg.requestsPerDay) (c3 : cfg.requestsPerDay < st.dayRequestCount + 1) :
    enforce_before_request cfg (some st) =
      (some ⟨st.minuteCount + 1, st.dayRequestCount + 1, st.dayTokenCount⟩,
       some .rateLimitedDay) := by
  simp only [enforce_before_request, hen, Bool.not_true, Bool.false_eq_true, if_false]
  split_ifs <;> first | rfl | (exfalso; (try dsimp only at *); omega)

/-- Evaluation of the quota gate when minute and day buckets pass (day
ceiling positive) and the day token counter already reaches its ceiling. -/
lemma enforce_eval_day_token (cfg : QuotaConfig) (st : QuotaCounters)
    (hen : cfg.rateLimitEnable = true)
    (c1 : ¬max 1 cfg.requestsPerMinute < st.minuteCount + 1)
    (c2 : 0 < cfg.requestsPerDay) (c3 : ¬cfg.requestsPerDay < st.dayRequestCount + 1)
    (c4 : 0 < cfg.tokenQuotaPerDay ∧ cfg.tokenQuotaPerDay ≤ st.dayTokenCount) :
    enforce_before_request cfg (some st) =
      (some ⟨st.minuteCount + 1, st.dayRequestCount + 1, st.dayTokenCount⟩,
       some .quotaExhausted) := by
  simp only [enforce_before_request, hen, Bool.not_true, Bool.false_eq_true, if_false]
  split_ifs <;> first | rfl | (exfalso; (try dsimp only at *); omega)

/-- Evaluation of the quota gate when every check passes with a positive day
ceiling. -/
lemma enforce_eval_day_ok (cfg : QuotaConfig) (st : QuotaCounters)
    (hen : cfg.rateLimitEnable = true)
    (c1 : ¬max 1 cfg.requestsPerMinute < st.minuteCount + 1)
    (c2 : 0 < cfg.requestsPerDay) (c3 : ¬cfg.requestsPerDay < st.dayRequestCount + 1)
    (c4 : ¬(0 < cfg.tokenQuotaPerDay ∧ cfg.tokenQuotaPerDay ≤ st.dayTokenCount)) :
    enforce_before_request cfg (some st) =
      (some ⟨st.minuteCount + 1, st.dayRequestCount + 1, st.dayTokenCount⟩, none) := by
  simp only [enforce_before_request, hen, Bool.not_true, Bool.false_eq_true, if_false]
  split_ifs <;> first | rfl | (exfalso; (try dsimp only at *); omega)

/-- Evaluation of the quota gate with no day ceiling and exhausted tokens. -/
lemma enforce_eval_token (cfg : QuotaConfig) (st : QuotaCounters)
    (hen : cfg.rateLimitEnable = true)
    (c1 : ¬max 1 cfg.requestsPerMinute < st.minuteCount + 1)
    (c2 : ¬0 < cfg.requestsPerDay)
    (c4 : 0 < cfg.tokenQuotaPerDay ∧ cfg.tokenQuotaPerDay ≤ st.dayTokenCount) :
    enforce_before_request cfg (some st) =
      (some ⟨st.minuteCount + 1, st.dayRequestCount, st.dayTokenCount⟩,
       some .quotaExhausted) := by
  simp only [enforce_before_request, hen, Bool.not_true, Bool.false_eq_true, if_false]
  split_ifs <;> first | rfl | (exfalso; (try dsimp only at *); omega)

/-- Evaluation of the quota gate when every check passes with no day
ceiling. -/
lemma enforce_eval_ok (cfg : QuotaConfig) (st : QuotaCounters)
    (hen : cfg.rateLimitEnable = true)
    (c1 : ¬max 1 cfg.requestsPerMinute < st.minuteCount + 1)
    (c2 : ¬0 < cfg.requestsPerDay)
    (c4 : ¬(0 < cfg.tokenQuotaPerDay ∧ cfg.tokenQuotaPerDay ≤ st.dayTokenCount)) :
    enforce_before_request cfg (some st) =
      (some ⟨st.minuteCount + 1, st.dayRequestCount, st.dayTokenCount⟩, none) := by
  simp only [enforce_before_request, hen, Bool.not_true, Bool.false_eq_true, if_false]
  split_ifs <;> first | rfl | (exfalso; (try dsimp only at *); omega)

/-- C7: the before-request quota check is a no-op when rate limiting is
disabled or the counter store is unavailable; otherwise it increments the
minute bucket and fails rate-limited when the incremented count exceeds the
per-minute ceiling, increments the day request bucket only when a day
ceiling > 0 is configured and fails rate-limited when exceeded, and checks
the day token bucket without incrementing it, failing quota-exhausted when
the used tokens already reach a configured token ceiling. -/
theorem claim_C7 (cfg : QuotaConfig) (st : QuotaCounters) :
    (cfg.rateLimitEnable = false →
      ∀ store, enforce_before_request cfg store = (store, none)) ∧
    (enforce_before_request cfg none = (none, none)) ∧
    (cfg.rateLimitEnable = true →
      ∃ st2, (enforce_before_request cfg (some st)).1 = some st2 ∧
        st2.minuteCount = st.minuteCount + 1 ∧
        st2.dayTokenCount = st.dayTokenCount ∧
        ((enforce_before_request cfg (some st)).2 = some .rateLimitedMinute ↔
          max 1 cfg.requestsPerMinute < st.minuteCount + 1) ∧
        (st.minuteCount + 1 ≤ max 1 cfg.requestsPerMinute →
          ((0 < cfg.requestsPerDay →
            st2.dayRequestCount = st.dayRequestCount + 1 ∧
            ((enforce_before_request cfg (some st)).2 = some .rateLimitedDay ↔
              cfg.requestsPerDay < st.dayRequestCount + 1)) ∧
          (cfg.requestsPerDay ≤ 0 →
            st2.dayRequestCount = st.dayRequestCount ∧
            (enforce_before_request cfg (some st)).2 ≠ some .rateLimitedDay) ∧
          (¬(0 < cfg.requestsPerDay ∧ cfg.requestsPerDay < st.dayRequestCount + 1) →
            ((enforce_before_request cfg (some st)).2 = some .quotaExhausted ↔
              0 < cfg.tokenQuotaPerDay ∧ cfg.tokenQuotaPerDay ≤ st.dayTokenCount) ∧
            (¬(0 < cfg.tokenQuotaPerDay ∧ cfg.tokenQuotaPerDay ≤ st.dayTokenCount) →
              (enforce_before_request cfg (some st)).2 = none))))) := by
  refine ⟨?_, ?_, ?_⟩
  · intro hdis store
    simp [enforce_before_request, hdis]
  · by_cases hen : cfg.rateLimitEnable <;> simp [enforce_before_request, hen]
  · intro hen
    by_cases c1 : max 1 cfg.requestsPerMinute < st.minuteCount + 1
    · have henf := enforce_eval_minute cfg st hen c1
      refine ⟨⟨st.minuteCount + 1, st.dayRequestCount, st.dayTokenCount⟩,
        by rw [henf], rfl, rfl, by rw [henf]; simp [c1], fun h => by omega⟩
    · by_cases c2 : 0 < cfg.requestsPerDay
      · by_cases c3 : cfg.requestsPerDay < st.dayRequestCount + 1
        · have henf := enforce_eval_day cfg st hen c1 c2 c3
          refine ⟨⟨st.minuteCount + 1, st.dayRequestCount + 1, st.dayTokenCount⟩,
            by rw [henf], rfl, rfl, by rw [henf]; simp [c1], ?_⟩
          intro h
          exact ⟨fun _ => ⟨rfl, by rw [henf]; simp [c3]⟩, fun h0 => by omega,
            fun h0 => absurd ⟨c2, c3⟩ h0⟩
        · by_cases c4 : 0 < cfg.tokenQuotaPerDay ∧ cfg.tokenQuotaPerDay ≤ st.dayTokenCount
          · have henf := enforce_eval_day_token cfg st hen c1 c2 c3 c4
            refine ⟨⟨st.minuteCount + 1, st.dayRequestCount + 1, st.dayTokenCount⟩,
              by rw [henf], rfl, rfl, by rw [henf]; simp [c1], ?_⟩
            intro h
            exact ⟨fun _ => ⟨rfl, by rw [henf]; simp [c3]⟩, fun h0 => by omega,
              fun _ => ⟨by rw [henf]; simp [c4], fun h0 => absurd c4 h0⟩⟩
          · have henf := enforce_eval_day_ok cfg st hen c1 c2 c3 c4
            refine ⟨⟨st.minuteCount + 1, st.dayRequestCount + 1, st.dayTokenCount⟩,
              by rw [henf], rfl, rfl, by rw [henf]; simp [c1], ?_⟩
            intro h
            exact ⟨fun _ => ⟨rfl, by rw [henf]; simp [c3]⟩, fun h0 => by omega,
              fun _ => ⟨by rw [henf]; simp [c4], fun _ => by rw [henf]⟩⟩
      · by_cases c4 : 0 < cfg.tokenQuotaPerDay ∧ cfg.tokenQuotaPerDay ≤ st.dayTokenCount
        · have henf := enforce_eval_token cfg st hen c1 c2 c4
          refine ⟨⟨st.minuteCount + 1, st.dayRequestCount, st.dayTokenCount⟩,
            by rw [henf], rfl, rfl, by rw [henf]; simp [c1], ?_⟩
          intro h
          exact ⟨fun h0 => by omega, fun _ => ⟨rfl, by rw [henf]; simp⟩,
            fun _ => ⟨by rw [henf]; simp [c4], fun h0 => absurd c4 h0⟩⟩
        · have henf := enforce_eval_ok cfg st hen c1 c2 c4
          refine ⟨⟨st.minuteCount + 1, st.dayRequestCount, st.dayTokenCount⟩,
            by rw [henf], rfl, rfl, by rw [henf]; simp [c1], ?_⟩
          intro h
          exact ⟨fun h0 => by omega, fun _ => ⟨rfl, by rw [henf]; simp⟩,
            fun _ => ⟨by rw [henf]; simp [c4], fun _ => by rw [henf]⟩⟩

/-- Witness for C7 at a concrete input: with limits 10/5/100 and fresh
counters, the check increments the minute and day buckets and raises no
error. -/
theorem claim_C7_witness :
    (enforce_before_request
        { rateLimitEnable := true, requestsPerMinute := 10, requestsPerDay := 5,
          tokenQuotaPerDay := 100 }
        (some { minuteCount := 0, dayRequestCount := 0, dayTokenCount := 0 })).2 = none := by
  obtain ⟨st2, h1, h2, h3, h4, h5⟩ :=
    (claim_C7
      { rateLimitEnable := true, requestsPerMinute := 10, requestsPerDay := 5,
        tokenQuotaPerDay := 100 }
      { minuteCount := 0, dayRequestCount := 0, dayTokenCount := 0 }).2.2 rfl
  exact ((h5 (by decide)).2.2 (by decide)).2 (by decide)

end Quota

namespace Chat

lemma toolResponseIds_nil : toolResponseIds [] = [] := rfl

lemma toolResponseIds_cons_assistant (c : String) (tcs : List ToolCall) (ms : List Msg) :
    toolResponseIds (.assistant c tcs :: ms) = toolResponseIds ms := by
  simp [toolResponseIds]

lemma toolResponseIds_cons_tool (c id : String) (ms : List Msg) :
    toolResponseIds (.tool c id :: ms) = id :: toolResponseIds ms := by
  simp [toolResponseIds]

lemma toolResponseIds_append (a b : List Msg) :
    toolResponseIds (a ++ b) = toolResponseIds a ++ toolResponseIds b := by
  simp [toolResponseIds]

lemma issuedCallIds_nil : issuedCallIds [] = [] := rfl

lemma issuedCallIds_cons_assistant (c : String) (tcs : List ToolCall) (ms : List Msg) :
    issuedCallIds (.assistant c tcs :: ms) =
      tcs.map (fun tc => tc.id) ++ issuedCallIds ms := by
  simp [issuedCallIds]

lemma issuedCallIds_cons_tool (c id : String) (ms : List Msg) :
    issuedCallIds (.tool c id :: ms) = issuedCallIds ms := by
  simp [issuedCallIds]

lemma issuedCallIds_append (a b : List Msg) :
    issuedCallIds (a ++ b) = issuedCallIds a ++ issuedCallIds b := by
  simp [issuedCallIds]

lemma run_tool_calls_ids (execTool : ToolCall → Except PyError ToolResult)
    (hids : ∀ tc tr, execTool tc = Except.ok tr → tr.tool_call_id = tc.id) :
    ∀ (tcs : List ToolCall) (ms : List Msg) (rs : List GenRecord) (trs : List ToolResult),
      run_tool_calls execTool tcs = .ok (ms, rs, trs) →
      toolResponseIds ms = tcs.map (fun tc => tc.id) ∧ issuedCallIds ms = [] := by
  intro tcs
  induction tcs with
  | nil =>
    intro ms rs trs h
    simp only [run_tool_calls, Except.ok.injEq, Prod.mk.injEq] at h
    obtain ⟨h1, h2, h3⟩ := h
    subst h1
    simp [toolResponseIds, issuedCallIds]
  | cons tc rest ih =>
    intro ms rs trs h
    simp only [run_tool_calls] at h
    cases he : execTool tc with
    | error e =>
      rw [he] at h
      simp at h
    | ok tr =>
      rw [he] at h
      cases hr : run_tool_calls execTool rest with
      | error e =>
        rw [hr] at h
        simp at h
      | ok out =>
        obtain ⟨ms2, rs2, trs2⟩ := out
        rw [hr] at h
        simp only [Except.ok.injEq, Prod.mk.injEq] at h
        obtain ⟨h1, h2, h3⟩ := h
        subst h1
        obtain ⟨ih1, ih2⟩ := ih ms2 rs2 trs2 hr
        constructor
        · rw [toolResponseIds_cons_tool, ih1, hids tc tr he]
          simp
        · rw [issuedCallIds_cons_tool, ih2]

lemma run_tool_calls_ok (execTool : ToolCall → Except PyError ToolResult)
    (hexec : ∀ tc, ∃ tr, execTool tc = Except.ok tr) :
    ∀ tcs : List ToolCall, ∃ out, run_tool_calls execTool tcs = .ok out := by
  intro tcs
  induction tcs with
  | nil => exact ⟨([], [], []), rfl⟩
  | cons tc rest ih =>
    obtain ⟨tr, htr⟩ := hexec tc
    obtain ⟨⟨ms, rs, trs⟩, hout⟩ := ih
    exact ⟨(Msg.tool tr.content tr.tool_call_id :: ms,
            GenRecord.toolRec tr.content tr.tool_name tr.tool_call_id tr.ok :: rs,
            tr :: trs), by simp [run_tool_calls, htr, hout]⟩

lemma run_tool_steps_ids (completionAt : Nat → Except PyError Completion)
    (execTool : ToolCall → Except PyError ToolResult)
    (hids : ∀ tc tr, execTool tc = Except.ok tr → tr.tool_call_id = tc.id) :
    ∀ (fuel k : Nat) (provider model : String) (r : ToolLoopResult),
      (run_tool_steps completionAt execTool provider model k fuel).result = .ok r →
      toolResponseIds r.appended = issuedCallIds r.appended := by
  intro fuel
  induction fuel with
  | zero =>
    intro k p m r h
    simp only [run_tool_steps, Except.ok.injEq] at h
    subst h
    simp [toolResponseIds, issuedCallIds]
  | succ fuel ih =>
    intro k p m r h
    simp only [run_tool_steps] at h
    cases hc : completionAt k with
    | error e =>
      rw [hc] at h
      simp at h
    | ok comp =>
      rw [hc] at h
      dsimp only at h
      cases hcc : comp.toolCalls with
      | nil =>
        rw [hcc] at h
        simp only [List.isEmpty_nil, if_true] at h
        simp only [Except.ok.injEq] at h
        subst h
        simp [toolResponseIds_cons_assistant, issuedCallIds_cons_assistant, hcc,
          toolResponseIds, issuedCallIds]
      | cons a as =>
        rw [hcc] at h
        simp only [List.isEmpty_cons, Bool.false_eq_true, if_false] at h
        cases hrt : run_tool_calls execTool (a :: as) with
        | error e =>
          rw [hrt] at h
          simp at h
        | ok out =>
          obtain ⟨ms, rs, trs⟩ := out
          rw [hrt] at h
          cases hres : (run_tool_steps completionAt execTool comp.provider comp.model
              (k + 1) fuel).result with
          | error e =>
            rw [hres] at h
            simp [Except.map] at h
          | ok r2 =>
            rw [hres] at h
            simp only [Except.map, Except.ok.injEq] at h
            subst h
            have hmain := ih (k + 1) comp.provider comp.model r2 hres
            obtain ⟨h1, h2⟩ := run_tool_calls_ids execTool hids (a :: as) ms rs trs hrt
            show toolResponseIds (Msg.assistant comp.content (a :: as) :: (ms ++ r2.appended)) =
              issuedCallIds (Msg.assistant comp.content (a :: as) :: (ms ++ r2.appended))
            rw [toolResponseIds_cons_assistant, issuedCallIds_cons_assistant,
              toolResponseIds_append, issuedCallIds_append, h1, h2, hmain]
            simp

/-- C2: in every tool-loop run that returns, each tool call of each
completion receives exactly one tool-role message, appended in provider
order before the next completion call: the sequence of tool-response ids in
the appended working context equals, in order, the sequence of tool-call
ids issued by the appended assistant messages; in particular the counts
agree, and every id receives exactly as many responses as calls issued it. -/
theorem claim_C2 (completionAt : Nat → Except PyError Completion)
    (execTool : ToolCall → Except PyError ToolResult) (provider model : String)
    (maxToolSteps : Nat) (r : ToolLoopResult)
    (hids : ∀ tc tr, execTool tc = Except.ok tr → tr.tool_call_id = tc.id)
    (hr : (run_completion_with_tools completionAt execTool provider model maxToolSteps).result
      = Except.ok r) :
    toolResponseIds r.appended = issuedCallIds r.appended ∧
    (toolResponseIds r.appended).length = (issuedCallIds r.appended).length ∧
    ∀ s, (toolResponseIds r.appended).count s = (issuedCallIds r.appended).count s := by
  have h := run_tool_steps_ids completionAt execTool hids (max 1 maxToolSteps) 0
    provider model r hr
  exact ⟨h, by rw [h], fun s => by rw [h]⟩

/-- Witness for C2 at a concrete environment: the first completion issues
one tool call, the second none. -/
theorem claim_C2_witness :
    toolResponseIds
        [Msg.assistant "use tool" [⟨"call1", "echo", "argtext"⟩],
         Msg.tool "result" "call1", Msg.assistant "done" []] =
      issuedCallIds
        [Msg.assistant "use tool" [⟨"call1", "echo", "argtext"⟩],
         Msg.tool "result" "call1", Msg.assistant "done" []] :=
  (claim_C2
    (fun k => if k = 0 then .ok ⟨"p", "m", "use tool", [⟨"call1", "echo", "argtext"⟩]⟩
      else .ok ⟨"p", "m", "done", []⟩)
    (fun tc => .ok ⟨true, tc.id, tc.name, "result"⟩) "p" "m" 3
    ⟨"done",
     [Msg.assistant "use tool" [⟨"call1", "echo", "argtext"⟩],
      Msg.tool "result" "call1", Msg.assistant "done" []],
     [GenRecord.assistant "use tool" [⟨"call1", "echo", "argtext"⟩] "p" "m" none,
      GenRecord.toolRec "result" "echo" "call1" true,
      GenRecord.assistant "done" [] "p" "m" none],
     [⟨true, "call1", "echo", "result"⟩], "p", "m"⟩
    (fun tc tr h => by
      simp only [Except.ok.injEq] at h
      rw [← h])
    rfl).1

lemma run_tool_steps_calls_le (completionAt : Nat → Except PyError Completion)
    (execTool : ToolCall → Except PyError ToolResult) :
    ∀ (fuel k : Nat) (provider model : String),
      (run_tool_steps completionAt execTool provider model k fuel).calls ≤ fuel := by
  intro fuel
  induction fuel with
  | zero =>
    intro k p m
    simp [run_tool_steps]
  | succ fuel ih =>
    intro k p m
    simp only [run_tool_steps]
    cases hc : completionAt k with
    | error e =>
      show (1 : Nat) ≤ fuel + 1
      omega
    | ok comp =>
      dsimp only
      cases hcc : comp.toolCalls with
      | nil =>
        show (1 : Nat) ≤ fuel + 1
        omega
      | cons a as =>
        cases hrt : run_tool_calls execTool (a :: as) with
        | error e =>
          show (1 : Nat) ≤ fuel + 1
          omega
        | ok out =>
          obtain ⟨ms, rs, trs⟩ := out
          show 1 + (run_tool_steps completionAt execTool comp.provider comp.model
            (k + 1) fuel).calls ≤ fuel + 1
          have := ih (k + 1) comp.provider comp.model
          omega

lemma run_tool_steps_exhaust (completionAt : Nat → Except PyError Completion)
    (execTool : ToolCall → Except PyError ToolResult)
    (hall : ∀ i, ∃ comp, completionAt i = Except.ok comp ∧ comp.toolCalls ≠ [])
    (hexec : ∀ tc, ∃ tr, execTool tc = Except.ok tr) :
    ∀ (fuel k : Nat) (provider model : String),
      ∃ r, (run_tool_steps completionAt execTool provider model k fuel).result = .ok r ∧
        r.assistantText = max_tool_steps_message ∧
        r.records ≠ [] ∧
        r.records.getLast? = some (.assistant max_tool_steps_message [] r.provider r.model
          (some "max_tool_steps_exceeded")) := by
  intro fuel
  induction fuel with
  | zero =>
    intro k p m
    refine ⟨_, rfl, rfl, by simp, rfl⟩
  | succ fuel ih =>
    intro k p m
    obtain ⟨comp, hk, hne⟩ := hall k
    obtain ⟨⟨ms, rs, trs⟩, hrt⟩ := run_tool_calls_ok execTool hexec comp.toolCalls
    obtain ⟨r2, hres, htext, hnonempty, hlast⟩ := ih (k + 1) comp.provider comp.model
    have hcc : comp.toolCalls.isEmpty = false := by
      simpa [List.isEmpty_iff] using hne
    refine ⟨{ assistantText := r2.assistantText
              appended := Msg.assistant comp.content comp.toolCalls :: (ms ++ r2.appended)
              records := GenRecord.assistant comp.content comp.toolCalls comp.provider
                comp.model none :: (rs ++ r2.records)
              toolRuns := trs ++ r2.toolRuns
              provider := r2.provider
              model := r2.model }, ?_, ?_, ?_, ?_⟩
    · simp only [run_tool_steps]
      rw [hk]
      dsimp only
      rw [hcc]
      simp only [Bool.false_eq_true, if_false]
      rw [hrt]
      dsimp only
      rw [hres]
      rfl
    · exact htext
    · simp
    · show (GenRecord.assistant comp.content comp.toolCalls comp.provider comp.model none ::
        (rs ++ r2.records)).getLast? = _
      rw [← List.cons_append, List.getLast?_append, hlast]
      rfl

/-- C5: the tool loop issues at most `max_tool_steps` completion calls, and
the effective `max_tool_steps` (the request value, validated by the schema
into [1, 8], or the configuration default) never exceeds the hard ceiling
of 8; when the budget is exhausted while the last completion still carries
tool calls, the run terminates normally with the synthesized final
assistant message tagged `max_tool_steps_exceeded`.  The bound on the
configuration default is modelled from the spec (hard ceiling 8), the
config module being outside the provided sources. -/
theorem claim_C5 (completionAt : Nat → Except PyError Completion)
    (execTool : ToolCall → Except PyError ToolResult) (provider model : String)
    (requestValue : Option Nat) (cfgDefault : Nat)
    (hreq : ∀ v, requestValue = some v → 1 ≤ v ∧ v ≤ 8)
    (hcfg1 : 1 ≤ cfgDefault) (hcfg8 : cfgDefault ≤ 8) :
    (run_completion_with_tools completionAt execTool provider model
        (effective_max_tool_steps requestValue cfgDefault)).calls ≤
      effective_max_tool_steps requestValue cfgDefault ∧
    effective_max_tool_steps requestValue cfgDefault ≤ 8 ∧
    ((∀ i, ∃ comp, completionAt i = Except.ok comp ∧ comp.toolCalls ≠ []) →
     (∀ tc, ∃ tr, execTool tc = Except.ok tr) →
     ∃ r, (run_completion_with_tools completionAt execTool provider model
          (effective_max_tool_steps requestValue cfgDefault)).result = .ok r ∧
        r.assistantText = max_tool_steps_message ∧
        r.records.getLast? = some (.assistant max_tool_steps_message [] r.provider r.model
          (some "max_tool_steps_exceeded"))) := by
  have hsteps : 1 ≤ effective_max_tool_steps requestValue cfgDefault ∧
      effective_max_tool_steps requestValue cfgDefault ≤ 8 := by
    cases hv : requestValue with
    | none => exact ⟨hcfg1, hcfg8⟩
    | some v =>
      obtain ⟨h1, h8⟩ := hreq v hv
      simp only [effective_max_tool_steps]
      have : v ≠ 0 := by omega
      simp [this]
      omega
  have hmax : max 1 (effective_max_tool_steps requestValue cfgDefault) =
      effective_max_tool_steps requestValue cfgDefault := by omega
  refine ⟨?_, hsteps.2, ?_⟩
  · have := run_tool_steps_calls_le completionAt execTool
      (max 1 (effective_max_tool_steps requestValue cfgDefault)) 0 provider model
    simpa [run_completion_with_tools, hmax] using this
  · intro hall hexec
    obtain ⟨r, hres, htext, -, hlast⟩ := run_tool_steps_exhaust completionAt execTool
      hall hexec (max 1 (effective_max_tool_steps requestValue cfgDefault)) 0 provider model
    exact ⟨r, hres, htext, hlast⟩

/-- Witness for C5 at a concrete environment (request asks for 2 steps,
configuration default 4): at most 2 completion calls are issued and the
effective bound is below 8. -/
theorem claim_C5_witness :
    (run_completion_with_tools
        (fun _ => .ok ⟨"p", "m", "again", [⟨"c1", "echo", "argtext"⟩]⟩)
        (fun tc => .ok ⟨true, tc.id, tc.name, "result"⟩) "p" "m"
        (effective_max_tool_steps (some 2) 4)).calls ≤
      effective_max_tool_steps (some 2) 4 ∧
    effective_max_tool_steps (some 2) 4 ≤ 8 :=
  have h := claim_C5
    (fun _ => .ok ⟨"p", "m", "again", [⟨"c1", "echo", "argtext"⟩]⟩)
    (fun tc => .ok ⟨true, tc.id, tc.name, "result"⟩) "p" "m"
    (some 2) 4
    (fun v hv => by
      simp only [Option.some.injEq] at hv
      omega)
    (by omega) (by omega)
  ⟨h.1, h.2.1⟩

lemma fallback_loop_success (env : Nat → AttemptOutcome) (primary : String) :
    ∀ (k : Nat) (cands : List String) (idx : Nat) (le : Option PyError)
      (rname : String) (res : ToolLoopResult),
      k < cands.length →
      (∀ i, i < k → transientFailure (env (idx + i))) →
      env (idx + k) = .runOk rname res →
      (∀ i, i < k → ∀ rn e, env (idx + i) = .runFail rn e → rn = cands.getD i "") →
      rname = cands.getD k "" →
      fallback_loop env primary idx le cands =
        .ok { res := res
              fallbackFrom := if 0 < idx + k then some primary else none
              chain := cands.take (k + 1) } := by
  intro k
  induction k with
  | zero =>
    intro cands idx le rname res hk hfail hsucc hnames hrn
    cases cands with
    | nil => simp at hk
    | cons cand rest =>
      have h0 : env idx = .runOk rname res := hsucc
      have hcand : rname = cand := hrn
      subst hcand
      simp only [fallback_loop, h0]
      simp
  | succ k ih =>
    intro cands idx le rname res hk hfail hsucc hnames hrn
    cases cands with
    | nil => simp at hk
    | cons cand rest =>
      have h0 : transientFailure (env idx) := hfail 0 (Nat.succ_pos k)
      have hsucc2 : env (idx + 1 + k) = .runOk rname res := by
        have harg : idx + 1 + k = idx + (k + 1) := by omega
        rw [harg]
        exact hsucc
      have hfail2 : ∀ i, i < k → transientFailure (env (idx + 1 + i)) := by
        intro i hi
        have harg : idx + 1 + i = idx + (i + 1) := by omega
        rw [harg]
        exact hfail (i + 1) (by omega)
      have hnames2 : ∀ i, i < k → ∀ rn e, env (idx + 1 + i) = .runFail rn e →
          rn = rest.getD i "" := by
        intro i hi rn e hf
        have harg : idx + 1 + i = idx + (i + 1) := by omega
        rw [harg] at hf
        exact hnames (i + 1) (by omega) rn e hf
      have hrn2 : rname = rest.getD k "" := hrn
      cases he : env idx with
      | resolveFail e =>
        have htr : is_fallback_candidate_error e = true := by
          rw [he] at h0
          exact h0
        have hrec := ih rest (idx + 1) (some e) rname res (by simpa using hk)
          hfail2 hsucc2 hnames2 hrn2
        simp only [fallback_loop, he]
        rw [if_pos htr, hrec]
        have harg : idx + 1 + k = idx + (k + 1) := by omega
        simp [harg]
      | runFail rn e =>
        have htr : is_fallback_candidate_error e = true := by
          rw [he] at h0
          exact h0
        have hrn0 : rn = cand := hnames 0 (Nat.succ_pos k) rn e he
        subst hrn0
        have hrec := ih rest (idx + 1) (some e) rname res (by simpa using hk)
          hfail2 hsucc2 hnames2 hrn2
        simp only [fallback_loop, he]
        rw [if_pos htr, hrec]
        have harg : idx + 1 + k = idx + (k + 1) := by omega
        simp [harg]
      | runOk rn r2 =>
        rw [he] at h0
        exact absurd h0 (by simp [transientFailure])

lemma fallback_loop_exhaust (env : Nat → AttemptOutcome) (primary : String) :
    ∀ (cands : List String) (idx : Nat) (le : Option PyError),
      cands ≠ [] →
      (∀ i, i < cands.length → transientFailure (env (idx + i))) →
      ∃ e, fallback_loop env primary idx le cands = .error e ∧
        (env (idx + cands.length - 1)).errOf = some e := by
  intro cands
  induction cands with
  | nil =>
    intro idx le h
    exact absurd rfl h
  | cons cand rest ih =>
    intro idx le hne hfail
    have h0 : transientFailure (env idx) := hfail 0 (by simp)
    cases he : env idx with
    | runOk rn r =>
      rw [he] at h0
      exact absurd h0 (by simp [transientFailure])
    | resolveFail e =>
      have htr : is_fallback_candidate_error e = true := by
        rw [he] at h0
        exact h0
      cases rest with
      | nil =>
        refine ⟨e, ?_, ?_⟩
        · simp [fallback_loop, he, htr]
        · show (env (idx + 1 - 1)).errOf = some e
          simp [he, AttemptOutcome.errOf]
      | cons b bs =>
        obtain ⟨e2, he2, herr⟩ := ih (idx + 1) (some e) (by simp) (fun i hi => by
          have harg : idx + 1 + i = idx + (i + 1) := by omega
          rw [harg]
          exact hfail (i + 1) (by simpa using Nat.succ_lt_succ hi))
        refine ⟨e2, ?_, ?_⟩
        · rw [fallback_loop.eq_def]
          dsimp only
          rw [he]
          dsimp only
          rw [if_pos htr, he2]
        · have harg : idx + 1 + (b :: bs).length - 1 = idx + (cand :: b :: bs).length - 1 := by
            simp
            omega
          rw [harg] at herr
          exact herr
    | runFail rn e =>
      have htr : is_fallback_candidate_error e = true := by
        rw [he] at h0
        exact h0
      cases rest with
      | nil =>
        refine ⟨e, ?_, ?_⟩
        · simp [fallback_loop, he, htr]
        · show (env (idx + 1 - 1)).errOf = some e
          simp [he, AttemptOutcome.errOf]
      | cons b bs =>
        obtain ⟨e2, he2, herr⟩ := ih (idx + 1) (some e) (by simp) (fun i hi => by
          have harg : idx + 1 + i = idx + (i + 1) := by omega
          rw [harg]
          exact hfail (i + 1) (by simpa using Nat.succ_lt_succ hi))
        refine ⟨e2, ?_, ?_⟩
        · rw [fallback_loop.eq_def]
          dsimp only
          rw [he]
          dsimp only
          rw [if_pos htr, he2]
        · have harg : idx + 1 + (b :: bs).length - 1 = idx + (cand :: b :: bs).length - 1 := by
            simp
            omega
          rw [harg] at herr
          exact herr

lemma dedup_candidates_acc (l : List String) :
    ∀ acc, ∃ t, dedup_candidates l acc = acc ++ t := by
  induction l with
  | nil =>
    intro acc
    exact ⟨[], by simp [dedup_candidates]⟩
  | cons n rest ih =>
    intro acc
    by_cases h : n = "" ∨ n ∈ acc
    · obtain ⟨t, ht⟩ := ih acc
      exact ⟨t, by simp [dedup_candidates, h, ht]⟩
    · obtain ⟨t, ht⟩ := ih (acc ++ [n])
      refine ⟨[n] ++ t, ?_⟩
      simp only [dedup_candidates, if_neg h, ht, List.append_assoc]

lemma dedup_candidates_nodup (l : List String) :
    ∀ acc, acc.Nodup → (dedup_candidates l acc).Nodup := by
  induction l with
  | nil =>
    intro acc h
    simpa [dedup_candidates] using h
  | cons n rest ih =>
    intro acc h
    by_cases hc : n = "" ∨ n ∈ acc
    · simpa [dedup_candidates, hc] using ih acc h
    · have hn : n ∉ acc := fun hm => hc (Or.inr hm)
      have hacc : (acc ++ [n]).Nodup := by
        rw [List.nodup_append]
        refine ⟨h, List.nodup_singleton n, ?_⟩
        intro a ha hb
        rw [List.mem_singleton] at hb
        subst hb
        exact hn ha
      simpa [dedup_candidates, hc] using ih (acc ++ [n]) hacc

/-- C1: over the fallback chain, if candidates before position k fail with
transient-classified errors and the candidate at position k succeeds, the
run succeeds with candidate k, records `fallback_from` exactly when k > 0,
and the recorded chain is exactly candidates 0..k in order (candidate i
being the name the resolver reports for it); if every candidate fails
transiently, the last error is re-raised; with no candidates at all the
generic no-provider-available error is raised.  The chain produced by
`_provider_candidates` is non-empty, duplicate-free and starts with the
normalised primary provider. -/
theorem claim_C1 :
    (∀ (env : Nat → AttemptOutcome) (primary : String) (cands : List String)
        (k : Nat) (rname : String) (res : ToolLoopResult),
      k < cands.length →
      (∀ i, i < k → transientFailure (env i)) →
      env k = .runOk rname res →
      (∀ i, i < k → ∀ rn e, env i = .runFail rn e → rn = cands.getD i "") →
      rname = cands.getD k "" →
      run_completion_with_fallback env primary cands =
        .ok { res := res
              fallbackFrom := if 0 < k then some primary else none
              chain := cands.take (k + 1) }) ∧
    (∀ (env : Nat → AttemptOutcome) (primary : String) (cands : List String),
      cands ≠ [] →
      (∀ i, i < cands.length → transientFailure (env i)) →
      ∃ e, run_completion_with_fallback env primary cands = .error e ∧
        (env (cands.length - 1)).errOf = some e) ∧
    (∀ (env : Nat → AttemptOutcome) (primary : String),
      run_completion_with_fallback env primary [] = .error noProviderError) ∧
    (∀ p d en f, provider_candidates p d en f ≠ [] ∧
      (provider_candidates p d en f).Nodup) ∧
    (∀ p d en f, ((if p = "" then d else p) : String).trim.toLower ≠ "" →
      (provider_candidates p d en f).head? =
        some ((if p = "" then d else p) : String).trim.toLower) := by
  refine ⟨?_, ?_, ?_, ?_, ?_⟩
  · intro env primary cands k rname res hk hfail hsucc hnames hrn
    have h := fallback_loop_success env primary k cands 0 none rname res hk
      (fun i hi => by
        rw [Nat.zero_add]
        exact hfail i hi)
      (by
        rw [Nat.zero_add]
        exact hsucc)
      (fun i hi rn e hf => by
        rw [Nat.zero_add] at hf
        exact hnames i hi rn e hf)
      hrn
    simpa [run_completion_with_fallback, Nat.zero_add] using h
  · intro env primary cands hne hfail
    have h := fallback_loop_exhaust env primary cands 0 none hne
      (fun i hi => by
        rw [Nat.zero_add]
        exact hfail i hi)
    simpa [run_completion_with_fallback, Nat.zero_add] using h
  · intro env primary
    rfl
  · intro p d en f
    unfold provider_candidates
    cases en with
    | false => simp
    | true =>
      simp only [Bool.not_true, Bool.false_eq_true, if_false]
      set pn := ((if p = "" then d else p) : String).trim.toLower with hpn
      set fl := (f.splitOn ",").filterMap (fun x =>
        if x.trim = "" then none else some x.trim.toLower) with hfl
      by_cases hemp : dedup_candidates (pn :: fl) [] = []
      · rw [if_pos hemp]
        exact ⟨by simp, by simp⟩
      · rw [if_neg hemp]
        exact ⟨hemp, dedup_candidates_nodup _ [] (by simp)⟩
  · intro p d en f hp
    unfold provider_candidates
    cases en with
    | false => simp
    | true =>
      simp only [Bool.not_true, Bool.false_eq_true, if_false]
      set pn := ((if p = "" then d else p) : String).trim.toLower with hpn
      set fl := (f.splitOn ",").filterMap (fun x =>
        if x.trim = "" then none else some x.trim.toLower) with hfl
      have hstep : dedup_candidates (pn :: fl) [] = dedup_candidates fl [pn] := by
        simp only [dedup_candidates]
        rw [if_neg (by simp [hp])]
        rfl
      obtain ⟨t, ht⟩ := dedup_candidates_acc fl [pn]
      rw [hstep, ht]
      simp

/-- Witness for C1 at a concrete environment: candidate 0 fails with a
transient error, candidate 1 succeeds; the run reports a fallback from the
primary and the chain lists both candidates. -/
theorem claim_C1_witness :
    run_completion_with_fallback
        (fun i => if i = 0 then .runFail "a" ⟨false, "boom", 0⟩
          else .runOk "b" ⟨"hi", [], [], [], "b", "bm"⟩)
        "a" ["a", "b"] =
      .ok { res := ⟨"hi", [], [], [], "b", "bm"⟩
            fallbackFrom := some "a"
            chain := ["a", "b"] } := by
  have h := claim_C1.1
    (fun i => if i = 0 then .runFail "a" ⟨false, "boom", 0⟩
      else .runOk "b" ⟨"hi", [], [], [], "b", "bm"⟩)
    "a" ["a", "b"] 1 "b" ⟨"hi", [], [], [], "b", "bm"⟩
    (by norm_num)
    (fun i hi => by
      have hz : i = 0 := by omega
      subst hz
      show is_fallback_candidate_error ⟨false, "boom", 0⟩ = true
      rfl)
    rfl
    (fun i hi rn e hf => by
      have hz : i = 0 := by omega
      subst hz
      have hf2 : AttemptOutcome.runFail "a" ⟨false, "boom", 0⟩ = .runFail rn e := hf
      injection hf2 with h1 h2
      exact h1.symm)
    rfl
  simpa using h

end Chat

namespace Memory

lemma trim_history_rows_eq {α : Type} (rows : List α) (n : Nat) :
    trim_history_rows rows (n : Int) = rows.drop (min n rows.length) := by
  unfold trim_history_rows
  by_cases h : (n : Int) ≤ 0
  · have hn : n = 0 := by omega
    rw [if_pos h, hn]
    simp
  · rw [if_neg h]
    congr 1
    omega

lemma maybe_refresh_summary_spec (cfg : MemoryConfig) (ms : String) (cnt : Int)
    (len : Nat) (llm : Option String) :
    cnt ≤ (maybe_refresh_summary cfg ms cnt len llm).storedCount ∧
    ((max 0 (maybe_refresh_summary cfg ms cnt len llm).storedCount).toNat ≤
        (maybe_refresh_summary cfg ms cnt len llm).summarizedCount ∨
      (maybe_refresh_summary cfg ms cnt len llm).summarizedCount = len) := by
  unfold maybe_refresh_summary
  cases llm with
  | none =>
    dsimp only
    split_ifs <;> (dsimp only; omega)
  | some c =>
    dsimp only
    split_ifs <;> (dsimp only; omega)

/-- C4: across one memory refresh the stored summarized message count never
decreases, and the trimmed history handed to the next completion call is
the suffix of the history from the returned count on: no message whose
index is below the (clamped) stored count after the refresh is included. -/
theorem claim_C4 {α : Type} (cfg : MemoryConfig) (memorySummary : String)
    (memoryMessageCount : Int) (rows : List α) (llm : Option String) :
    memoryMessageCount ≤
      (maybe_refresh_summary cfg memorySummary memoryMessageCount rows.length
        llm).storedCount ∧
    trim_history_rows rows
        ((maybe_refresh_summary cfg memorySummary memoryMessageCount rows.length
          llm).summarizedCount : Int) =
      rows.drop (min (maybe_refresh_summary cfg memorySummary memoryMessageCount
        rows.length llm).summarizedCount rows.length) ∧
    ∀ j, j < (trim_history_rows rows
        ((maybe_refresh_summary cfg memorySummary memoryMessageCount rows.length
          llm).summarizedCount : Int)).length →
      (max 0 (maybe_refresh_summary cfg memorySummary memoryMessageCount
          rows.length llm).storedCount).toNat ≤
        min (maybe_refresh_summary cfg memorySummary memoryMessageCount
          rows.length llm).summarizedCount rows.length + j := by
  obtain ⟨hA, hD⟩ := maybe_refresh_summary_spec cfg memorySummary memoryMessageCount
    rows.length llm
  refine ⟨hA, trim_history_rows_eq rows _, ?_⟩
  intro j hj
  rw [trim_history_rows_eq, List.length_drop] at hj
  omega

/-- Witness for C4 at a concrete input: stored count 2, 20 history rows,
a successful summarisation; the stored count advances to the cutoff 16. -/
theorem claim_C4_witness :
    (2 : Int) ≤ (maybe_refresh_summary
      { memoryEnable := true, summaryTriggerMessages := 6, keepRecentMessages := 4,
        summaryMaxChars := 500 }
      "" 2 (List.range 20).length (some "摘要")).storedCount :=
  (claim_C4
    { memoryEnable := true, summaryTriggerMessages := 6, keepRecentMessages := 4,
      summaryMaxChars := 500 }
    "" 2 (List.range 20) (some "摘要")).1

end Memory

namespace Tools

/-- C9: for a registered tool and a named call, local tool execution never
raises: invalid JSON argument text is wrapped as raw arguments and the
executor is still invoked, an executor exception is converted into an
`ok = false` result carrying the error string, and the returned record
always carries the ok flag, tool call id (the call id, or the generated one
when absent), tool name, arguments and content. -/
theorem claim_C9 {J R : Type} (parseJson : String → Option J) (freshId : String)
    (tools : List (String × (ToolArguments J → Except String R)))
    (call : RawToolCall) (executor : ToolArguments J → Except String R)
    (hname : call.name ≠ "") (hreg : tools.lookup call.name = some executor) :
    (execute_tool_call parseJson freshId tools call = .ok
      { ok := match executor (argumentsOf parseJson call) with
              | .ok _ => true
              | .error _ => false
        tool_call_id := if call.id = "" then freshId else call.id
        tool_name := call.name
        arguments := argumentsOf parseJson call
        content := match executor (argumentsOf parseJson call) with
              | .ok r => .success r
              | .error m => .failure m }) ∧
    (parseJson (argumentsTextOf call) = none →
      argumentsOf parseJson call = .raw (argumentsTextOf call)) ∧
    (∀ m, executor (argumentsOf parseJson call) = .error m →
      ∃ out, execute_tool_call parseJson freshId tools call = .ok out ∧
        out.ok = false ∧ out.content = .failure m) := by
  have hbody : execute_tool_call parseJson freshId tools call = .ok
      { ok := match executor (argumentsOf parseJson call) with
              | .ok _ => true
              | .error _ => false
        tool_call_id := if call.id = "" then freshId else call.id
        tool_name := call.name
        arguments := argumentsOf parseJson call
        content := match executor (argumentsOf parseJson call) with
              | .ok r => .success r
              | .error m => .failure m } := by
    unfold execute_tool_call
    rw [if_neg hname, hreg]
    dsimp only
    cases hex : executor (argumentsOf parseJson call) <;> simp [hex]
  refine ⟨hbody, ?_, ?_⟩
  · intro hp
    unfold argumentsOf
    rw [hp]
  · intro m hm
    refine ⟨_, hbody, ?_, ?_⟩ <;> simp [hm]

/-- Witness for C9 at a concrete input: invalid JSON arguments, registered
executor succeeding; the call gets the generated id and raw arguments. -/
theorem claim_C9_witness :
    execute_tool_call (J := Unit) (R := String) (fun _ => none) "gen1"
        [("echo", fun _ => .ok "ok")] ⟨"", "echo", "notjson"⟩ =
      .ok { ok := true, tool_call_id := "gen1", tool_name := "echo",
            arguments := .raw "notjson", content := .success "ok" } :=
  (claim_C9 (fun _ => none) "gen1" [("echo", fun _ => .ok "ok")]
    ⟨"", "echo", "notjson"⟩ (fun _ => .ok "ok") (by decide) rfl).1

end Tools

namespace Obs

/-- C6: every run, single-shot or streaming, whatever the outcome of its
stages, produces exactly one observability record attempt in an
unconditional final step, and the failure or success of that write never
changes what the run returns or raises. -/
theorem claim_C6 {A : Type} (isStream : Bool) (stages : RunStages A) :
    (run_with_observability isStream stages).2.length = 1 ∧
    (∃ success, (run_with_observability isStream stages).2 =
      [ObsEvent.record isStream success]) ∧
    ∀ rec2, (run_with_observability isStream
        { stages with recordOutcome := rec2 }).1 =
      (run_with_observability isStream stages).1 := by
  exact ⟨rfl, ⟨_, rfl⟩, fun rec2 => rfl⟩

end Obs

namespace Streaming

open Chat (PyError is_fallback_candidate_error)

lemma consumeItems_no_chunk :
    ∀ items : List StreamItem, (consumeItems items).2.2 = false →
      (consumeItems items).1 = [] ∧ (consumeItems items).2.1 = [] := by
  intro items
  induction items with
  | nil =>
    intro h
    exact ⟨rfl, rfl⟩
  | cons it rest ih =>
    intro h
    cases it with
    | other => exact ih h
    | chunk d => simp [consumeItems] at h

lemma eventsPrefixFrom_succ (env : Nat → StreamAttempt) (idx k : Nat) :
    eventsPrefixFrom env idx (k + 1) =
      attemptPreEvents (env idx) ++ eventsPrefixFrom env (idx + 1) k := by
  unfold eventsPrefixFrom
  rw [List.range_succ_eq_map]
  simp only [List.map_cons, List.flatten_cons, List.map_map, Nat.add_zero]
  congr 1
  have hmap : List.map ((fun i => attemptPreEvents (env (idx + i))) ∘ Nat.succ)
      (List.range k) =
      List.map (fun i => attemptPreEvents (env (idx + 1 + i))) (List.range k) := by
    apply List.map_congr_left
    intro i _
    simp only [Function.comp_apply]
    have harg : idx + Nat.succ i = idx + 1 + i := by omega
    rw [harg]
  rw [hmap]

lemma chainPrefixFrom_succ (env : Nat → StreamAttempt) (cand : String)
    (rest : List String) (idx k : Nat) :
    chainPrefixFrom env (cand :: rest) idx (k + 1) =
      attemptChainEntry cand (env idx) :: chainPrefixFrom env rest (idx + 1) k := by
  unfold chainPrefixFrom
  rw [List.range_succ_eq_map]
  simp only [List.map_cons, List.map_map, Nat.add_zero]
  congr 1
  apply List.map_congr_left
  intro i hi
  simp only [Function.comp_apply, List.getD_cons_succ]
  congr 2
  omega

lemma stream_loop_success (env : Nat → StreamAttempt) :
    ∀ (k : Nat) (cands : List String) (idx : Nat) (le : Option PyError)
      (rp rm : String) (items : List StreamItem),
      k < cands.length →
      (∀ i, i < k → preChunkTransientFailure (env (idx + i))) →
      env (idx + k) = .stream rp rm items none →
      stream_loop env idx le cands =
        (eventsPrefixFrom env idx k ++ SEvent.meta rp rm :: deltaEvents items,
         chainPrefixFrom env cands idx k ++ [rp],
         .success (streamText items)) := by
  intro k
  induction k with
  | zero =>
    intro cands idx le rp rm items hk hfail hsucc
    cases cands with
    | nil => simp at hk
    | cons cand rest =>
      have h0 : env idx = .stream rp rm items none := hsucc
      simp only [stream_loop, h0]
      simp [eventsPrefixFrom, chainPrefixFrom, deltaEvents, streamText]
  | succ k ih =>
    intro cands idx le rp rm items hk hfail hsucc
    cases cands with
    | nil => simp at hk
    | cons cand rest =>
      have h0 : preChunkTransientFailure (env idx) := hfail 0 (Nat.succ_pos k)
      have hsucc2 : env (idx + 1 + k) = .stream rp rm items none := by
        have harg : idx + 1 + k = idx + (k + 1) := by omega
        rw [harg]
        exact hsucc
      have hfail2 : ∀ i, i < k → preChunkTransientFailure (env (idx + 1 + i)) := by
        intro i hi
        have harg : idx + 1 + i = idx + (i + 1) := by omega
        rw [harg]
        exact hfail (i + 1) (by omega)
      cases he : env idx with
      | resolveFail e =>
        rw [he] at h0
        have htr : is_fallback_candidate_error e = true := h0
        have hrec := ih rest (idx + 1) (some e) rp rm items (by simpa using hk)
          hfail2 hsucc2
        simp only [stream_loop, he]
        rw [if_pos htr, hrec, eventsPrefixFrom_succ, chainPrefixFrom_succ, he]
        simp [attemptPreEvents, attemptChainEntry]
      | stream rp0 rm0 items0 err0 =>
        rw [he] at h0
        obtain ⟨hnochunk, e0, herr0, htr0⟩ := h0
        obtain ⟨hev0, hpt0⟩ := consumeItems_no_chunk items0 hnochunk
        subst herr0
        have hrec := ih rest (idx + 1) (some e0) rp rm items (by simpa using hk)
          hfail2 hsucc2
        simp only [stream_loop, he]
        rw [hnochunk]
        simp only [Bool.false_eq_true, if_false]
        rw [if_pos htr0, hrec, eventsPrefixFrom_succ, chainPrefixFrom_succ, he]
        simp [attemptPreEvents, attemptChainEntry, hev0]

lemma stream_loop_fatal (env : Nat → StreamAttempt) :
    ∀ (k : Nat) (cands : List String) (idx : Nat) (le : Option PyError)
      (rp rm : String) (items : List StreamItem) (e : PyError),
      k < cands.length →
      (∀ i, i < k → preChunkTransientFailure (env (idx + i))) →
      env (idx + k) = .stream rp rm items (some e) →
      (consumeItems items).2.2 = true →
      stream_loop env idx le cands =
        (eventsPrefixFrom env idx k ++ SEvent.meta rp rm :: deltaEvents items,
         chainPrefixFrom env cands idx k ++ [rp],
         .fatal (streamText items) e) := by
  intro k
  induction k with
  | zero =>
    intro cands idx le rp rm items e hk hfail hfat hchunk
    cases cands with
    | nil => simp at hk
    | cons cand rest =>
      have h0 : env idx = .stream rp rm items (some e) := hfat
      simp only [stream_loop, h0]
      rw [if_pos hchunk]
      simp [eventsPrefixFrom, chainPrefixFrom, deltaEvents, streamText]
  | succ k ih =>
    intro cands idx le rp rm items e hk hfail hfat hchunk
    cases cands with
    | nil => simp at hk
    | cons cand rest =>
      have h0 : preChunkTransientFailure (env idx) := hfail 0 (Nat.succ_pos k)
      have hfat2 : env (idx + 1 + k) = .stream rp rm items (some e) := by
        have harg : idx + 1 + k = idx + (k + 1) := by omega
        rw [harg]
        exact hfat
      have hfail2 : ∀ i, i < k → preChunkTransientFailure (env (idx + 1 + i)) := by
        intro i hi
        have harg : idx + 1 + i = idx + (i + 1) := by omega
        rw [harg]
        exact hfail (i + 1) (by omega)
      cases he : env idx with
      | resolveFail e1 =>
        rw [he] at h0
        have htr : is_fallback_candidate_error e1 = true := h0
        have hrec := ih rest (idx + 1) (some e1) rp rm items e (by simpa using hk)
          hfail2 hfat2 hchunk
        simp only [stream_loop, he]
        rw [if_pos htr, hrec, eventsPrefixFrom_succ, chainPrefixFrom_succ, he]
        simp [attemptPreEvents, attemptChainEntry]
      | stream rp0 rm0 items0 err0 =>
        rw [he] at h0
        obtain ⟨hnochunk, e0, herr0, htr0⟩ := h0
        obtain ⟨hev0, hpt0⟩ := consumeItems_no_chunk items0 hnochunk
        subst herr0
        have hrec := ih rest (idx + 1) (some e0) rp rm items e (by simpa using hk)
          hfail2 hfat2 hchunk
        simp only [stream_loop, he]
        rw [hnochunk]
        simp only [Bool.false_eq_true, if_false]
        rw [if_pos htr0, hrec, eventsPrefixFrom_succ, chainPrefixFrom_succ, he]
        simp [attemptPreEvents, attemptChainEntry, hev0]

/-- C3 (amended): a candidate attempt that fails with a transient-classified
error before any stream chunk has been received advances silently to the
next candidate, which re-emits a fresh `meta`; a failure after at least one
chunk was received — whether or not any delta event was emitted — is fatal:
the partial text accumulated so far is persisted as a `partial: true`
assistant message when non-blank, and the final event is a single `error`
event; a run whose stream throws after one delta produces exactly the
events meta, delta, error. -/
theorem claim_C3 :
    (∀ (env : Nat → StreamAttempt) (cands : List String) (k : Nat)
        (rp rm : String) (items : List StreamItem),
      k < cands.length →
      (∀ i, i < k → preChunkTransientFailure (env i)) →
      env k = .stream rp rm items none →
      chat_stream_run env cands =
        { events := eventsPrefixFrom env 0 k ++ SEvent.meta rp rm ::
            (deltaEvents items ++ [SEvent.done (streamText items)])
          persisted := .fullMessage (streamText items)
          chain := chainPrefixFrom env cands 0 k ++ [rp] }) ∧
    (∀ (env : Nat → StreamAttempt) (cands : List String) (k : Nat)
        (rp rm : String) (items : List StreamItem) (e : PyError),
      k < cands.length →
      (∀ i, i < k → preChunkTransientFailure (env i)) →
      env k = .stream rp rm items (some e) →
      (consumeItems items).2.2 = true →
      chat_stream_run env cands =
        { events := eventsPrefixFrom env 0 k ++ SEvent.meta rp rm ::
            (deltaEvents items ++ [SEvent.errorEv e.detail])
          persisted := if streamText items = "" then .noMessage
            else .partialMessage (streamText items)
          chain := chainPrefixFrom env cands 0 k ++ [rp] }) ∧
    (∀ (env : Nat → StreamAttempt) (cand rp rm d : String) (e : PyError),
      d ≠ "" → pyStrip d ≠ "" →
      env 0 = .stream rp rm [.chunk d] (some e) →
      chat_stream_run env [cand] =
        { events := [SEvent.meta rp rm, SEvent.delta d, SEvent.errorEv e.detail]
          persisted := .partialMessage (pyStrip d)
          chain := [rp] }) := by
  have partB : ∀ (env : Nat → StreamAttempt) (cands : List String) (k : Nat)
      (rp rm : String) (items : List StreamItem) (e : PyError),
      k < cands.length →
      (∀ i, i < k → preChunkTransientFailure (env i)) →
      env k = .stream rp rm items (some e) →
      (consumeItems items).2.2 = true →
      chat_stream_run env cands =
        { events := eventsPrefixFrom env 0 k ++ SEvent.meta rp rm ::
            (deltaEvents items ++ [SEvent.errorEv e.detail])
          persisted := if streamText items = "" then .noMessage
            else .partialMessage (streamText items)
          chain := chainPrefixFrom env cands 0 k ++ [rp] } := by
    intro env cands k rp rm items e hk hfail hfat hchunk
    have h := stream_loop_fatal env k cands 0 none rp rm items e hk
      (fun i hi => by
        rw [Nat.zero_add]
        exact hfail i hi)
      (by
        rw [Nat.zero_add]
        exact hfat)
      hchunk
    unfold chat_stream_run
    rw [h]
    simp
  refine ⟨?_, partB, ?_⟩
  · intro env cands k rp rm items hk hfail hsucc
    have h := stream_loop_success env k cands 0 none rp rm items hk
      (fun i hi => by
        rw [Nat.zero_add]
        exact hfail i hi)
      (by
        rw [Nat.zero_add]
        exact hsucc)
    unfold chat_stream_run
    rw [h]
    simp
  · intro env cand rp rm d e hd hdt henv
    have h := partB env [cand] 0 rp rm [.chunk d] e (by simp)
      (fun i hi => absurd hi (by omega)) henv rfl
    rw [h]
    have hde : deltaEvents [.chunk d] = [SEvent.delta d] := by
      simp [deltaEvents, consumeItems, hd]
    have hst : streamText [.chunk d] = pyStrip d := by
      simp [streamText, consumeItems, hd]
      rfl
    rw [hde, hst, if_neg hdt]
    simp [eventsPrefixFrom, chainPrefixFrom]

/-- Counterexample to C3 as stated: the first candidate receives one chunk
whose delta text is empty — so no delta event has been emitted — and then
fails with a transient-classified error; the run does not advance to the
healthy second candidate but ends fatally with an error event. -/
theorem claim_C3_counterexample :
    chat_stream_run
        (fun i => if i = 0 then .stream "a" "m" [.chunk ""] (some ⟨false, "boom", 0⟩)
          else .stream "b" "m" [.chunk "x"] none)
        ["a", "b"] =
      { events := [SEvent.meta "a" "m", SEvent.errorEv "boom"]
        persisted := .noMessage
        chain := ["a"] } ∧
    (chat_stream_run
        (fun i => if i = 0 then .stream "a" "m" [.chunk ""] (some ⟨false, "boom", 0⟩)
          else .stream "b" "m" [.chunk "x"] none)
        ["a", "b"]).events ≠
      [SEvent.meta "a" "m", SEvent.meta "b" "m", SEvent.delta "x",
       SEvent.done "x"] := by
  have h1 : chat_stream_run
      (fun i => if i = 0 then .stream "a" "m" [.chunk ""] (some ⟨false, "boom", 0⟩)
        else .stream "b" "m" [.chunk "x"] none)
      ["a", "b"] =
    { events := [SEvent.meta "a" "m", SEvent.errorEv "boom"]
      persisted := .noMessage
      chain := ["a"] } := by
    rfl
  refine ⟨h1, ?_⟩
  rw [h1]
  decide

/-- Witness for the amended C3 at a concrete input: a single candidate whose
stream yields one delta and then throws; the events are exactly meta,
delta, error and the single delta text is persisted tagged partial. -/
theorem claim_C3_witness :
    chat_stream_run
        (fun _ => .stream "a" "m" [.chunk "x"] (some ⟨false, "boom", 0⟩))
        ["a"] =
      { events := [SEvent.meta "a" "m", SEvent.delta "x", SEvent.errorEv "boom"]
        persisted := .partialMessage (pyStrip "x")
        chain := ["a"] } :=
  claim_C3.2.2 (fun _ => .stream "a" "m" [.chunk "x"] (some ⟨false, "boom", 0⟩))
    "a" "a" "m" "x" ⟨false, "boom", 0⟩ (by decide) (by decide) rfl

end Streaming

end ExileAI
